import Mathlib

/-!
# anonymous-chat: group lifecycle of the chat service

A shallow embedding of the Go packages `domain` (`group.go`, `user.go`),
`persistence/inmemory` (both repositories), `application`
(`chat_service.go`) and `websocket` (`protocol.go`, `handleMessage` of
`hub.go`), followed by theorems about group creation, joining, leaving,
ownership, search, removal, message dispatch and broadcast.

Modelling conventions
* A Go `map[string]V` is an association list `GoMap V` with at most one entry
  per key as long as it is built with `mapSet` / `mapDelete` from `[]`.
  `mapSet` overwrites in place, `mapDelete` drops the key.
* A `*User` is an address (`Nat`) into `Stores.heap`, the list of every `User`
  object allocated so far.  The user repository and the member maps of groups
  hold addresses, as the Go maps hold pointers.
* A `*Group` lives in exactly one place, the repository map, under the key it
  was found with; a mutation through the pointer is written back to that key
  at the point where the Go code mutates the object (not at `Save`).
* `error` values are `GoError`; `fmt.Errorf` with `%w` is `GoError.wrapf`,
  `errors.Is` is `GoError.Is`.
* `uuid.New().String()`, `time.Now()` and `rand.Intn` are inputs of the
  operation that calls them (`groupID`, `now`, `rnd`).
* Mutexes are not modelled: every operation is run to completion.
* The handlers that `handleMessage` calls and the type `Client` are not part of
  the sources: the handlers are parameters (`Handlers`), and what is taken from
  the specification instead is marked as such.
-/

namespace AnonymousChat

/-! ## Go maps -/

/-- A Go `map[string]V`, as an association list. -/
abbrev GoMap (V : Type) := List (String × V)

/-- Lookup `v, ok := m[k]`. -/
def mapGet {V : Type} : GoMap V → String → Option V
  | [], _ => none
  | (k', v) :: m, k => if k' = k then some v else mapGet m k

/-- Assignment `m[k] = v`. -/
def mapSet {V : Type} : GoMap V → String → V → GoMap V
  | [], k, v => [(k, v)]
  | (k', v') :: m, k, v => if k' = k then (k, v) :: m else (k', v') :: mapSet m k v

/-- Builtin `delete(m, k)`. -/
def mapDelete {V : Type} : GoMap V → String → GoMap V
  | [], _ => []
  | (k', v) :: m, k => if k' = k then mapDelete m k else (k', v) :: mapDelete m k

/-- The keys of a map, in the order a `range` loop of the model visits them. -/
def mapKeys {V : Type} (m : GoMap V) : List String := m.map Prod.fst

/-- The values of a map. -/
def mapValues {V : Type} (m : GoMap V) : List V := m.map Prod.snd

/-! ## Errors -/

/-- Go `error` values of the three packages. -/
inductive GoError where
  /-- Sentinel `domain.ErrMemberNotFound`. -/
  | ErrMemberNotFound
  /-- Sentinel `application.ErrUserNotFound`. -/
  | ErrUserNotFound
  /-- Sentinel `application.ErrGroupNotFound`. -/
  | ErrGroupNotFound
  /-- Sentinel `application.ErrAlreadyExists`. -/
  | ErrAlreadyExists
  /-- A `fmt.Errorf` without `%w`: the formatted text. -/
  | errorf (msg : String)
  /-- A `fmt.Errorf` whose format ends in `%w`: the text before the verb and the wrapped error. -/
  | wrapf (msg : String) (inner : GoError)
  deriving DecidableEq, Repr

/-- The call `errors.Is(e, target)`: walk the `Unwrap` chain comparing with `==`.
Wrapper values are compared by content, which is exact for the sentinel targets
the callers pass. -/
def GoError.Is : GoError → GoError → Bool
  | .wrapf msg inner, target =>
      if GoError.wrapf msg inner = target then true else inner.Is target
  | e, target => decide (e = target)

/-! ## package domain -/

/-- The struct `domain.User` (mutex omitted, `LastSeen` as a clock reading). -/
structure User where
  ID : String
  DisplayName : String
  ProfilePictureURL : String
  PublicKey : String
  LastSeen : Nat
  deriving DecidableEq, Repr

instance : Inhabited User := ⟨⟨"", "", "", "", 0⟩⟩

/-- The constructor `domain.NewUser`. -/
def NewUser (id displayName publicKey : String) (now : Nat) : User :=
  { ID := id, DisplayName := displayName, ProfilePictureURL := "",
    PublicKey := publicKey, LastSeen := now }

/-- The method `(*User).UpdateProfile`. -/
def User.UpdateProfile (u : User) (displayName profilePicURL : String) : User :=
  let u := if displayName ≠ "" then { u with DisplayName := displayName } else u
  if profilePicURL ≠ "" then { u with ProfilePictureURL := profilePicURL } else u

/-- Dereference of a `*User`. -/
def deref (heap : List User) (p : Nat) : User := heap.getD p default

/-- The struct `domain.Group`; `Members` maps a user ID to a `*User`. -/
structure Group where
  ID : String
  Name : String
  JoinTag : String
  ProfilePictureURL : String
  OwnerID : String
  Members : GoMap Nat
  CreatedAt : Nat
  deriving DecidableEq, Repr

/-- The constructor `domain.NewGroup`. -/
def NewGroup (id name joinTag ownerID : String) (now : Nat) : Group :=
  { ID := id, Name := name, JoinTag := joinTag, ProfilePictureURL := "",
    OwnerID := ownerID, Members := [], CreatedAt := now }

/-- The method `(*Group).AddMember`: `g.Members[user.ID] = user`. -/
def Group.AddMember (g : Group) (heap : List User) (user : Nat) : Group :=
  { g with Members := mapSet g.Members (deref heap user).ID user }

/-- The method `(*Group).RemoveMember`: the group after the call and the returned
`(newOwnerID, err)`.  `rnd` is the random source: the `range` loop collects the
remaining keys in an unspecified order and `rand.Intn` indexes the result, so
the pick is some remaining key; here the keys are taken in map order and the
index is `rnd % len`, which reaches every remaining key as `rnd` varies. -/
def Group.RemoveMember (g : Group) (userID : String) (rnd : Nat) :
    Group × Except GoError String :=
  match mapGet g.Members userID with
  | none => (g, .error .ErrMemberNotFound)
  | some _ =>
    let g1 := { g with Members := mapDelete g.Members userID }
    if g1.OwnerID = userID ∧ g1.Members.length > 0 then
      let memberIDs := mapKeys g1.Members
      let g2 := { g1 with OwnerID := memberIDs.getD (rnd % memberIDs.length) "" }
      (g2, .ok g2.OwnerID)
    else
      (g1, .ok "")

/-- The method `(*Group).GetMemberIDs`. -/
def Group.GetMemberIDs (g : Group) : List String := mapKeys g.Members

/-- The method `(*Group).IsEmpty`. -/
def Group.IsEmpty (g : Group) : Bool := g.Members.length == 0

/-- The method `(*Group).UpdateDetails`. -/
def Group.UpdateDetails (g : Group) (name profilePicURL : String) : Group :=
  let g := if name ≠ "" then { g with Name := name } else g
  if profilePicURL ≠ "" then { g with ProfilePictureURL := profilePicURL } else g

/-! ## package inmemory -/

/-- The struct `InMemoryUserRepository`. -/
structure InMemoryUserRepository where
  users : GoMap Nat
  deriving DecidableEq, Repr

/-- The struct `InMemoryGroupRepository`: `groups` by ID, `tags` from join tag to group ID. -/
structure InMemoryGroupRepository where
  groups : GoMap Group
  tags : GoMap String
  deriving DecidableEq, Repr

/-- The constructor `NewInMemoryUserRepository`. -/
def NewInMemoryUserRepository : InMemoryUserRepository := { users := [] }

/-- The constructor `NewInMemoryGroupRepository`. -/
def NewInMemoryGroupRepository : InMemoryGroupRepository := { groups := [], tags := [] }

namespace InMemoryUserRepository

/-- The method `Add`. -/
def Add (r : InMemoryUserRepository) (heap : List User) (user : Nat) :
    InMemoryUserRepository × Option GoError :=
  let id := (deref heap user).ID
  match mapGet r.users id with
  | some _ => (r, some (.errorf ("user with ID " ++ id ++ " already exists")))
  | none => ({ r with users := mapSet r.users id user }, none)

/-- The method `GetByID`. -/
def GetByID (r : InMemoryUserRepository) (id : String) : Except GoError Nat :=
  match mapGet r.users id with
  | none => .error (.errorf ("user with ID " ++ id ++ " not found"))
  | some user => .ok user

/-- The method `Remove`. -/
def Remove (r : InMemoryUserRepository) (id : String) :
    InMemoryUserRepository × Option GoError :=
  match mapGet r.users id with
  | none => (r, some (.errorf ("user with ID " ++ id ++ " not found")))
  | some _ => ({ r with users := mapDelete r.users id }, none)

/-- The method `GetAll`. -/
def GetAll (r : InMemoryUserRepository) : List Nat := mapValues r.users

end InMemoryUserRepository

namespace InMemoryGroupRepository

/-- The method `Add`. -/
def Add (r : InMemoryGroupRepository) (group : Group) :
    InMemoryGroupRepository × Option GoError :=
  match mapGet r.groups group.ID with
  | some _ => (r, some (.errorf ("group with ID " ++ group.ID ++ " already exists")))
  | none =>
    match mapGet r.tags group.JoinTag with
    | some _ => (r, some (.errorf ("group with tag " ++ group.JoinTag ++ " already exists")))
    | none =>
      ({ groups := mapSet r.groups group.ID group,
         tags := mapSet r.tags group.JoinTag group.ID }, none)

/-- The method `GetByID`. -/
def GetByID (r : InMemoryGroupRepository) (id : String) : Except GoError Group :=
  match mapGet r.groups id with
  | none => .error (.errorf ("group with ID " ++ id ++ " not found"))
  | some group => .ok group

/-- The method `GetByTag`; on success the result is `r.groups[groupID]`, which is
`nil` (`none`) when the index names an ID that is not stored. -/
def GetByTag (r : InMemoryGroupRepository) (tag : String) : Except GoError (Option Group) :=
  match mapGet r.tags tag with
  | none => .error (.errorf ("group with tag " ++ tag ++ " not found"))
  | some groupID => .ok (mapGet r.groups groupID)

/-- The method `Remove`. -/
def Remove (r : InMemoryGroupRepository) (id : String) :
    InMemoryGroupRepository × Option GoError :=
  match mapGet r.groups id with
  | none => (r, some (.errorf ("group with ID " ++ id ++ " not found")))
  | some group =>
    ({ groups := mapDelete r.groups id, tags := mapDelete r.tags group.JoinTag }, none)

/-- The method `GetAll`. -/
def GetAll (r : InMemoryGroupRepository) : List Group := mapValues r.groups

/-- The method `Save`: only checks that the group is stored. -/
def Save (r : InMemoryGroupRepository) (group : Group) : Option GoError :=
  match mapGet r.groups group.ID with
  | none => some (.errorf ("cannot save group with ID " ++ group.ID ++ ": not found"))
  | some _ => none

end InMemoryGroupRepository

/-! ## package application -/

/-- The process state behind a `ChatService`: every `User` object allocated so
far and the two repositories the service wraps. -/
structure Stores where
  heap : List User
  userRepo : InMemoryUserRepository
  groupRepo : InMemoryGroupRepository
  deriving DecidableEq, Repr

/-- The state built by `main`: both repositories fresh. -/
def Stores.empty : Stores :=
  { heap := [], userRepo := NewInMemoryUserRepository, groupRepo := NewInMemoryGroupRepository }

/-- A mutation of the group object found under `key`, seen through the repository map. -/
def Stores.writeGroup (s : Stores) (key : String) (g : Group) : Stores :=
  { s with groupRepo := { s.groupRepo with groups := mapSet s.groupRepo.groups key g } }

namespace ChatService

/-- The method `RegisterUser`; the result is the `*User`. -/
def RegisterUser (s : Stores) (userID displayName publicKey : String) (now : Nat) :
    Stores × Except GoError Nat :=
  match s.userRepo.GetByID userID with
  | .ok user => (s, .ok user)
  | .error _ =>
    let newUser := s.heap.length
    let s1 := { s with heap := s.heap ++ [NewUser userID displayName publicKey now] }
    match s1.userRepo.Add s1.heap newUser with
    | (_, some err) => (s1, .error (.wrapf "failed to add user: " err))
    | (repo, none) => ({ s1 with userRepo := repo }, .ok newUser)

/-- The method `GetUser`. -/
def GetUser (s : Stores) (userID : String) : Except GoError Nat :=
  match s.userRepo.GetByID userID with
  | .error _ => .error .ErrUserNotFound
  | .ok user => .ok user

/-- The method `UnregisterUser`. -/
def UnregisterUser (s : Stores) (userID : String) : Stores × Option GoError :=
  let (repo, err) := s.userRepo.Remove userID
  ({ s with userRepo := repo }, err)

/-- The method `CreateGroup`; `groupID` is the string `uuid.New()` yields. -/
def CreateGroup (s : Stores) (name joinTag ownerID groupID : String) (now : Nat) :
    Stores × Except GoError Group :=
  match s.userRepo.GetByID ownerID with
  | .error _ => (s, .error .ErrUserNotFound)
  | .ok owner =>
    match s.groupRepo.GetByTag joinTag with
    | .ok _ => (s, .error (.errorf ("join tag '" ++ joinTag ++ "' is already in use")))
    | .error _ =>
      let group := NewGroup groupID name joinTag (deref s.heap owner).ID now
      let group := group.AddMember s.heap owner
      match s.groupRepo.Add group with
      | (repo, some err) =>
        ({ s with groupRepo := repo }, .error (.wrapf "failed to create group: " err))
      | (repo, none) => ({ s with groupRepo := repo }, .ok group)

/-- The method `JoinGroup`. -/
def JoinGroup (s : Stores) (groupID userID : String) : Stores × Except GoError Group :=
  match s.groupRepo.GetByID groupID with
  | .error _ => (s, .error .ErrGroupNotFound)
  | .ok group =>
    match s.userRepo.GetByID userID with
    | .error _ => (s, .error .ErrUserNotFound)
    | .ok user =>
      let group := group.AddMember s.heap user
      let s1 := s.writeGroup groupID group
      match s1.groupRepo.Save group with
      | some err => (s1, .error (.wrapf "failed to save group after joining: " err))
      | none => (s1, .ok group)

/-- The method `LeaveGroup`; the result is `(group, newOwnerID)`. -/
def LeaveGroup (s : Stores) (groupID userID : String) (rnd : Nat) :
    Stores × Except GoError (Group × String) :=
  match s.groupRepo.GetByID groupID with
  | .error _ => (s, .error .ErrGroupNotFound)
  | .ok group =>
    match group.RemoveMember userID rnd with
    | (group, .error err) =>
      (s.writeGroup groupID group, .error (.wrapf "failed to remove member: " err))
    | (group, .ok newOwnerID) =>
      let s1 := s.writeGroup groupID group
      if group.IsEmpty then
        (s1, .ok (group, newOwnerID))
      else
        match s1.groupRepo.Save group with
        | some err => (s1, .error (.wrapf "failed to save group after leaving: " err))
        | none => (s1, .ok (group, newOwnerID))

/-- The method `UpdateGroupDetails`. -/
def UpdateGroupDetails (s : Stores) (groupID name profilePicURL : String) :
    Stores × Except GoError Group :=
  match s.groupRepo.GetByID groupID with
  | .error _ => (s, .error .ErrGroupNotFound)
  | .ok group =>
    let group := group.UpdateDetails name profilePicURL
    let s1 := s.writeGroup groupID group
    match s1.groupRepo.Save group with
    | some err => (s1, .error (.wrapf "failed to save group details: " err))
    | none => (s1, .ok group)

/-- The method `UpdateUserProfile`: the object is updated through its pointer. -/
def UpdateUserProfile (s : Stores) (userID displayName profilePicURL : String) :
    Stores × Except GoError Nat :=
  match s.userRepo.GetByID userID with
  | .error _ => (s, .error .ErrUserNotFound)
  | .ok user =>
    ({ s with heap := s.heap.set user ((deref s.heap user).UpdateProfile displayName profilePicURL) },
      .ok user)

end ChatService

/-! ## Sequences of calls -/

/-- One call on the service (or, for `removeGroup`, on the group repository),
with the values of the identifiers, clock and random source it consumes. -/
inductive Call where
  | registerUser (userID displayName publicKey : String) (now : Nat)
  | unregisterUser (userID : String)
  | createGroup (name joinTag ownerID groupID : String) (now : Nat)
  | joinGroup (groupID userID : String)
  | leaveGroup (groupID userID : String) (rnd : Nat)
  | updateGroupDetails (groupID name profilePicURL : String)
  | updateUserProfile (userID displayName profilePicURL : String)
  | removeGroup (groupID : String)
  deriving DecidableEq, Repr

/-- The state after one call. -/
def Call.apply (s : Stores) : Call → Stores
  | .registerUser userID displayName publicKey now =>
      (ChatService.RegisterUser s userID displayName publicKey now).1
  | .unregisterUser userID => (ChatService.UnregisterUser s userID).1
  | .createGroup name joinTag ownerID groupID now =>
      (ChatService.CreateGroup s name joinTag ownerID groupID now).1
  | .joinGroup groupID userID => (ChatService.JoinGroup s groupID userID).1
  | .leaveGroup groupID userID rnd => (ChatService.LeaveGroup s groupID userID rnd).1
  | .updateGroupDetails groupID name profilePicURL =>
      (ChatService.UpdateGroupDetails s groupID name profilePicURL).1
  | .updateUserProfile userID displayName profilePicURL =>
      (ChatService.UpdateUserProfile s userID displayName profilePicURL).1
  | .removeGroup groupID => { s with groupRepo := (s.groupRepo.Remove groupID).1 }

/-- The state after a sequence of calls, oldest first. -/
def runCalls (s : Stores) (calls : List Call) : Stores := calls.foldl Call.apply s

/-- The calls named by the owner-membership invariant: register, create, join, leave. -/
def Call.isMembershipCall : Call → Bool
  | .registerUser _ _ _ _ => true
  | .createGroup _ _ _ _ _ => true
  | .joinGroup _ _ => true
  | .leaveGroup _ _ _ => true
  | _ => false


/-! ## Invariant, case folding and example states -/

/-- What the two repositories maintain between calls: a user is stored under
its own ID, a group is stored under its own ID and indexed under its join tag,
and every entry of the tag index names a stored group with that tag. -/
structure StoreInv (s : Stores) : Prop where
  userKey : ∀ k p, mapGet s.userRepo.users k = some p →
    p < s.heap.length ∧ (deref s.heap p).ID = k
  groupKey : ∀ k g, mapGet s.groupRepo.groups k = some g → g.ID = k
  groupTag : ∀ k g, mapGet s.groupRepo.groups k = some g →
    mapGet s.groupRepo.tags g.JoinTag = some k
  tagGroup : ∀ t k, mapGet s.groupRepo.tags t = some k →
    ∃ g, mapGet s.groupRepo.groups k = some g ∧ g.JoinTag = t

/-- The group `CreateGroup` builds for an owner object `owner`. -/
def createdGroup (s : Stores) (name joinTag groupID : String) (now owner : Nat) : Group :=
  (NewGroup groupID name joinTag (deref s.heap owner).ID now).AddMember s.heap owner

/-- Equality of two strings up to the case of ASCII letters (the behaviour of
`strings.EqualFold` on ASCII text). -/
def equalFoldASCII (a b : String) : Bool :=
  a.data.map Char.toLower == b.data.map Char.toLower

/-- Three registered users `u1`, `u2`, `u3`. -/
def threeUsers : List Call :=
  [.registerUser "u1" "Ann" "k1" 1, .registerUser "u2" "Bob" "k2" 2,
   .registerUser "u3" "Cy" "k3" 3]

/-- The stores after `u1` has created the group `g1` with tag `abc123` and `u2` has joined. -/
def friendsStores : Stores :=
  runCalls Stores.empty
    (threeUsers ++ [.createGroup "Friends" "abc123" "u1" "g1" 4, .joinGroup "g1" "u2"])

/-- The stores of `friendsStores` after `u1` has left. -/
def lastMemberStores : Stores := runCalls friendsStores [.leaveGroup "g1" "u1" 7]

/-- The stores of `friendsStores` after both members have left, `u1` first. -/
def emptiedStores : Stores :=
  runCalls friendsStores [.leaveGroup "g1" "u1" 7, .leaveGroup "g1" "u2" 5]

/-- A run of membership calls: `u1` creates `g1` and leaves it, then `u2` joins. -/
def rejoinCalls : List Call :=
  [.registerUser "u1" "Ann" "k1" 1, .registerUser "u2" "Bob" "k2" 2,
   .createGroup "Friends" "abc123" "u1" "g1" 3, .leaveGroup "g1" "u1" 0,
   .joinGroup "g1" "u2"]

/-! ## Search, repository runs and further example states -/

/-- The method `ChatService.FindGroupsByTag`, returning the stores with the
result since the other service calls do.  `equalFold` stands for
`strings.EqualFold` of the Go standard library.  `GetAll` of the in-memory
repository always returns a nil error, so the error branch is never taken; the
groups come in the order in which the model ranges over the map (Go leaves the
order open). -/
def ChatService.FindGroupsByTag (equalFold : String → String → Bool) (s : Stores)
    (tagQuery : String) : Stores × Except GoError (List Group) :=
  let allGroups := s.groupRepo.GetAll
  (s, .ok (allGroups.filter (fun group => equalFold group.JoinTag tagQuery)))

/-- One call on the group repository alone. -/
inductive RepoCall where
  | add (group : Group)
  | remove (id : String)
  | save (group : Group)
  deriving DecidableEq, Repr

/-- The repository after one call; `Save` writes nothing. -/
def RepoCall.apply (r : InMemoryGroupRepository) : RepoCall → InMemoryGroupRepository
  | .add group => (r.Add group).1
  | .remove id => (r.Remove id).1
  | .save _ => r

/-- The repository after a sequence of calls, oldest first. -/
def runRepoCalls (r : InMemoryGroupRepository) (calls : List RepoCall) :
    InMemoryGroupRepository :=
  calls.foldl RepoCall.apply r

/-- The tag index and the group map agree: tag `t` is indexed to `id` exactly
when the group stored under `id` has join tag `t`. -/
def RepoInv (r : InMemoryGroupRepository) : Prop :=
  ∀ t id, mapGet r.tags t = some id ↔ ∃ g, mapGet r.groups id = some g ∧ g.JoinTag = t

/-- No user ID occurs twice among the keys of the member map of a stored group. -/
def MemberKeysNodup (s : Stores) : Prop :=
  ∀ id g, mapGet s.groupRepo.groups id = some g → (mapKeys g.Members).Nodup

/-- No group ID occurs twice among the keys of the group map. -/
def GroupKeysNodup (s : Stores) : Prop := (mapKeys s.groupRepo.groups).Nodup

/-- The stores of `friendsStores` after `u3` has created `g2` with the tag `ABC123`. -/
def caseTwinStores : Stores :=
  runCalls friendsStores [.createGroup "Shouting" "ABC123" "u3" "g2" 9]

/-! ## package websocket -/

/-- The struct `IncomingMessage` of `protocol.go`.  `Payload` is `interface{}`,
here a value of any type `P`; the field `Type` is called `MsgType`, `Type`
being reserved. -/
structure IncomingMessage (P : Type) where
  MsgType : String
  Payload : P
  deriving DecidableEq, Repr

/-- The struct `OutgoingMessage` of `protocol.go`. -/
structure OutgoingMessage (P : Type) where
  MsgType : String
  Payload : P
  deriving DecidableEq, Repr

/-- The struct `Hub`: `clients` maps a user ID to a `*Client`, `groups` a group
ID to a set of `*Client`.  `C` is the type of a `*Client`; the channels and the
mutex are omitted and the state behind `chatService` is kept beside the hub. -/
structure Hub (C : Type) where
  clients : GoMap C
  groups : GoMap (List C)
  deriving DecidableEq, Repr

/-- The constructor `NewHub`. -/
def NewHub (C : Type) : Hub C := { clients := [], groups := [] }

/-- The methods of `*Hub` that `handleMessage` calls.  Their bodies are not in
`hub.go`, so they are parameters: `σ` is the state they act on (the registries
of the hub, the clients and their queues, the stores behind the chat service)
and `C` the type of a `*Client`. -/
structure Handlers (σ C P : Type) where
  handleAuthenticate : C → P → σ → σ
  handleCreateGroup : C → P → σ → σ
  handleJoinGroup : C → P → σ → σ
  handleLeaveGroup : C → P → σ → σ
  handleSendMessage : C → P → σ → σ
  handleKeyExchange : C → P → String → σ → σ
  handleUpdateProfile : C → P → σ → σ

/-- The method `(*Hub).handleMessage`: the state after the call and the lines
`handleMessage` itself writes with `log.Printf`.  The `switch` compares
`msg.Type` with the case labels in order. -/
def Hub.handleMessage {σ C P : Type} (h : Handlers σ C P) (client : C)
    (msg : IncomingMessage P) (w : σ) : σ × List String :=
  if msg.MsgType = "authenticate" then
    (h.handleAuthenticate client msg.Payload w, [])
  else if msg.MsgType = "create_group" then
    (h.handleCreateGroup client msg.Payload w, [])
  else if msg.MsgType = "join_group" then
    (h.handleJoinGroup client msg.Payload w, [])
  else if msg.MsgType = "leave_group" then
    (h.handleLeaveGroup client msg.Payload w, [])
  else if msg.MsgType = "send_message" then
    (h.handleSendMessage client msg.Payload w, [])
  else if msg.MsgType = "key_exchange_offer" then
    (h.handleKeyExchange client msg.Payload "key_exchange_answer" w, [])
  else if msg.MsgType = "key_exchange_answer" then
    (h.handleKeyExchange client msg.Payload "key_exchange_complete" w, [])
  else if msg.MsgType = "update_profile" then
    (h.handleUpdateProfile client msg.Payload w, [])
  else
    (w, ["Unknown message type: " ++ msg.MsgType])

/-- The case labels of the `switch` in `handleMessage`. -/
def recognisedTypes : List String :=
  ["authenticate", "create_group", "join_group", "leave_group", "send_message",
   "key_exchange_offer", "key_exchange_answer", "update_profile"]

/-- Handlers that only record their call: the name of the handler, the client,
the payload and, for `handleKeyExchange`, the reply type. -/
def recordingHandlers (C P : Type) : Handlers (List (String × C × P × String)) C P :=
  { handleAuthenticate := fun c p w => w ++ [("handleAuthenticate", c, p, "")]
    handleCreateGroup := fun c p w => w ++ [("handleCreateGroup", c, p, "")]
    handleJoinGroup := fun c p w => w ++ [("handleJoinGroup", c, p, "")]
    handleLeaveGroup := fun c p w => w ++ [("handleLeaveGroup", c, p, "")]
    handleSendMessage := fun c p w => w ++ [("handleSendMessage", c, p, "")]
    handleKeyExchange := fun c p t w => w ++ [("handleKeyExchange", c, p, t)]
    handleUpdateProfile := fun c p w => w ++ [("handleUpdateProfile", c, p, "")] }

/-- Modelled from the spec: the type `Client` is absent from src.  After §3
(Connection) it has an optional bound user ID, unset until the connection is
authenticated, and after §5 an output queue of its own, here the list of the
messages handed to it, oldest first. -/
structure Client (P : Type) where
  userID : Option String
  send : List (OutgoingMessage P)
  deriving DecidableEq, Repr

/-- The state the methods of the hub act on: the hub, every `Client` object (a
`*Client` is an index into `conns`) and the stores behind the chat service. -/
structure HubState (P : Type) where
  hub : Hub Nat
  conns : List (Client P)
  stores : Stores
  deriving DecidableEq, Repr

/-- The user ID a `*Client` is bound to, if any. -/
def HubState.boundUser {P : Type} (w : HubState P) (client : Nat) : Option String :=
  (w.conns.get? client).bind Client.userID

/-- Modelled from the spec: sending on a client is absent from src; after §5 an
outbound message is put on the output queue of that one connection. -/
def HubState.sendTo {P : Type} (w : HubState P) (client : Nat) (m : OutgoingMessage P) :
    HubState P :=
  { w with conns := w.conns.modify (fun c => { c with send := c.send ++ [m] }) client }

/-- Modelled from the spec: the bodies of `handleCreateGroup`, `handleJoinGroup`,
`handleLeaveGroup`, `handleSendMessage`, `handleKeyExchange` and
`handleUpdateProfile` are absent from src.  §4.3 gives every message type other
than `authenticate` the precondition "authenticated" and §4.1 the failure
`Unauthenticated`, reply-only, the connection staying open.  This is that guard
in front of a handler body: on an unbound connection the reply `unauth` is
queued for the sender and nothing else happens; what the handler does on a
bound connection stays the parameter `body`. -/
def requireAuthenticated {P : Type} (unauth : OutgoingMessage P)
    (body : Nat → P → HubState P → HubState P) (client : Nat) (payload : P)
    (w : HubState P) : HubState P :=
  match w.boundUser client with
  | some _ => body client payload w
  | none => w.sendTo client unauth

/-- Modelled from the spec: the handlers of the hub, absent from src, as the
guard `requireAuthenticated` in front of bodies `h` that stay parameters;
`handleAuthenticate` is the one handler an unbound connection may reach (§4.1). -/
def guardedHandlers {P : Type} (unauth : OutgoingMessage P)
    (h : Handlers (HubState P) Nat P) : Handlers (HubState P) Nat P :=
  { handleAuthenticate := h.handleAuthenticate
    handleCreateGroup := requireAuthenticated unauth h.handleCreateGroup
    handleJoinGroup := requireAuthenticated unauth h.handleJoinGroup
    handleLeaveGroup := requireAuthenticated unauth h.handleLeaveGroup
    handleSendMessage := requireAuthenticated unauth h.handleSendMessage
    handleKeyExchange := fun c p t =>
      requireAuthenticated unauth (fun c p => h.handleKeyExchange c p t) c p
    handleUpdateProfile := requireAuthenticated unauth h.handleUpdateProfile }

/-- Handler bodies that do nothing. -/
def idleHandlers (P : Type) : Handlers (HubState P) Nat P :=
  { handleAuthenticate := fun _ _ w => w
    handleCreateGroup := fun _ _ w => w
    handleJoinGroup := fun _ _ w => w
    handleLeaveGroup := fun _ _ w => w
    handleSendMessage := fun _ _ w => w
    handleKeyExchange := fun _ _ _ w => w
    handleUpdateProfile := fun _ _ w => w }

/-- The reply for a message from an unbound connection. -/
def unauthReply : OutgoingMessage String := ⟨"error", "Unauthenticated"⟩

/-- A hub with one connection, not yet bound to a user, over `friendsStores`. -/
def freshConnection : HubState String :=
  { hub := NewHub Nat, conns := [⟨none, []⟩], stores := friendsStores }

/-! ## Broadcast -/

/-- What a broadcast step makes of the record `cl` of the connection it visits;
`sup` tells whether the connection is superseded. -/
def steppedClient {P : Type} (cap : Nat) (m : OutgoingMessage P) (excludeUserID : String)
    (sup : Bool) (cl : Client P) : Client P :=
  if cl.userID = some excludeUserID then cl
  else if sup then cl
  else if cl.send.length < cap then { cl with send := cl.send ++ [m] }
  else { cl with userID := none }

end AnonymousChat

namespace AnonymousChat

/-! ## Lemmas on Go maps -/

theorem mapGet_mapSet_self {V : Type} (m : GoMap V) (k : String) (v : V) :
    mapGet (mapSet m k v) k = some v := by
  induction m with
  | nil => simp [mapSet, mapGet]
  | cons e m ih =>
    obtain ⟨k', v'⟩ := e
    by_cases h : k' = k
    · simp [mapSet, mapGet, h]
    · simp [mapSet, mapGet, h, ih]

theorem mapGet_mapSet_ne {V : Type} (m : GoMap V) (k k' : String) (v : V) (h : k' ≠ k) :
    mapGet (mapSet m k v) k' = mapGet m k' := by
  induction m with
  | nil => simp [mapSet, mapGet, Ne.symm h]
  | cons e m ih =>
    obtain ⟨k₀, v₀⟩ := e
    by_cases h₀ : k₀ = k
    · subst h₀
      simp [mapSet, mapGet, Ne.symm h]
    · by_cases h₁ : k₀ = k'
      · subst h₁
        simp [mapSet, mapGet, h₀]
      · simp [mapSet, mapGet, h₀, h₁, ih]

theorem mapSet_eq_self {V : Type} (m : GoMap V) (k : String) (v : V)
    (h : mapGet m k = some v) : mapSet m k v = m := by
  induction m with
  | nil => simp [mapGet] at h
  | cons e m ih =>
    obtain ⟨k', v'⟩ := e
    by_cases hk : k' = k
    · subst hk
      simp [mapGet] at h
      simp [mapSet, h]
    · simp [mapGet, hk] at h
      simp [mapSet, hk, ih h]

theorem mapSet_mapSet {V : Type} (m : GoMap V) (k : String) (v : V) :
    mapSet (mapSet m k v) k v = mapSet m k v :=
  mapSet_eq_self _ _ _ (mapGet_mapSet_self m k v)

theorem mapGet_eq_none_iff {V : Type} (m : GoMap V) (k : String) :
    mapGet m k = none ↔ k ∉ mapKeys m := by
  induction m with
  | nil => simp [mapGet, mapKeys]
  | cons e m ih =>
    obtain ⟨k', v'⟩ := e
    by_cases hk : k' = k
    · simp [mapGet, mapKeys, hk]
    · have ih' : mapGet m k = none ↔ k ∉ List.map Prod.fst m := ih
      simp [mapGet, mapKeys, hk, Ne.symm hk, ih']

theorem mem_mapKeys_iff {V : Type} (m : GoMap V) (k : String) :
    k ∈ mapKeys m ↔ ∃ v, mapGet m k = some v := by
  rw [← not_iff_not, ← mapGet_eq_none_iff]
  cases mapGet m k <;> simp

theorem mapKeys_mapSet_of_mem {V : Type} (m : GoMap V) (k : String) (v : V)
    (h : k ∈ mapKeys m) : mapKeys (mapSet m k v) = mapKeys m := by
  induction m with
  | nil => simp [mapKeys] at h
  | cons e m ih =>
    obtain ⟨k', v'⟩ := e
    by_cases hk : k' = k
    · simp [mapSet, mapKeys, hk]
    · have h' : k ∈ mapKeys m := by
        simpa [mapKeys, Ne.symm hk] using h
      have := ih h'
      simp only [mapKeys] at this
      simp [mapSet, mapKeys, hk, this]

theorem mem_mapKeys_mapSet {V : Type} (m : GoMap V) (k x : String) (v : V) :
    x ∈ mapKeys (mapSet m k v) ↔ x ∈ mapKeys m ∨ x = k := by
  rw [mem_mapKeys_iff, mem_mapKeys_iff]
  by_cases hx : x = k
  · subst hx
    simp [mapGet_mapSet_self]
  · simp [mapGet_mapSet_ne m k x v hx, hx]

theorem length_mapSet_of_mem {V : Type} (m : GoMap V) (k : String) (v : V)
    (h : k ∈ mapKeys m) : (mapSet m k v).length = m.length := by
  have := congrArg List.length (mapKeys_mapSet_of_mem m k v h)
  simpa [mapKeys] using this

theorem mapGet_mapDelete_self {V : Type} (m : GoMap V) (k : String) :
    mapGet (mapDelete m k) k = none := by
  induction m with
  | nil => simp [mapDelete, mapGet]
  | cons e m ih =>
    obtain ⟨k', v'⟩ := e
    by_cases hk : k' = k
    · simp [mapDelete, hk, ih]
    · simp [mapDelete, mapGet, hk, ih]

theorem mapGet_mapDelete_ne {V : Type} (m : GoMap V) (k k' : String) (h : k' ≠ k) :
    mapGet (mapDelete m k) k' = mapGet m k' := by
  induction m with
  | nil => simp [mapDelete, mapGet]
  | cons e m ih =>
    obtain ⟨k₀, v₀⟩ := e
    by_cases h₀ : k₀ = k
    · subst h₀
      simp [mapDelete, mapGet, Ne.symm h, ih]
    · by_cases h₁ : k₀ = k'
      · subst h₁
        simp [mapDelete, mapGet, h₀]
      · simp [mapDelete, mapGet, h₀, h₁, ih]

theorem mem_mapKeys_mapDelete {V : Type} (m : GoMap V) (k x : String) :
    x ∈ mapKeys (mapDelete m k) ↔ x ∈ mapKeys m ∧ x ≠ k := by
  rw [mem_mapKeys_iff, mem_mapKeys_iff]
  by_cases hx : x = k
  · subst hx
    simp [mapGet_mapDelete_self]
  · simp [mapGet_mapDelete_ne m k x hx, hx]

/-! ## The repository invariant -/

theorem storeInv_empty : StoreInv Stores.empty := by
  constructor <;> intro a b h <;>
    simp [Stores.empty, NewInMemoryUserRepository, NewInMemoryGroupRepository, mapGet] at h

theorem storeInv_writeGroup {s : Stores} (hinv : StoreInv s) {key : String} {g g' : Group}
    (hg : mapGet s.groupRepo.groups key = some g) (hid : g'.ID = g.ID)
    (htag : g'.JoinTag = g.JoinTag) : StoreInv (s.writeGroup key g') := by
  constructor
  · exact hinv.userKey
  · intro k x hx
    by_cases hk : k = key
    · subst hk
      simp only [Stores.writeGroup, mapGet_mapSet_self, Option.some.injEq] at hx
      subst hx
      rw [hid]
      exact hinv.groupKey _ _ hg
    · simp only [Stores.writeGroup, mapGet_mapSet_ne _ _ _ _ hk] at hx
      exact hinv.groupKey _ _ hx
  · intro k x hx
    by_cases hk : k = key
    · subst hk
      simp only [Stores.writeGroup, mapGet_mapSet_self, Option.some.injEq] at hx
      subst hx
      simp only [Stores.writeGroup]
      rw [htag]
      exact hinv.groupTag _ _ hg
    · simp only [Stores.writeGroup, mapGet_mapSet_ne _ _ _ _ hk] at hx
      exact hinv.groupTag _ _ hx
  · intro t k ht
    obtain ⟨x, hx, hxt⟩ := hinv.tagGroup t k ht
    by_cases hk : k = key
    · subst hk
      refine ⟨g', by simp [Stores.writeGroup, mapGet_mapSet_self], ?_⟩
      rw [htag]
      rw [hg] at hx
      cases hx
      exact hxt
    · exact ⟨x, by simpa [Stores.writeGroup, mapGet_mapSet_ne _ _ _ _ hk] using hx, hxt⟩

theorem addMember_fields (g : Group) (heap : List User) (user : Nat) :
    (g.AddMember heap user).ID = g.ID ∧ (g.AddMember heap user).JoinTag = g.JoinTag ∧
    (g.AddMember heap user).OwnerID = g.OwnerID ∧ (g.AddMember heap user).Name = g.Name :=
  ⟨rfl, rfl, rfl, rfl⟩

theorem removeMember_fields (g : Group) (userID : String) (rnd : Nat) :
    (g.RemoveMember userID rnd).1.ID = g.ID ∧
    (g.RemoveMember userID rnd).1.JoinTag = g.JoinTag ∧
    (g.RemoveMember userID rnd).1.Name = g.Name := by
  unfold Group.RemoveMember
  cases mapGet g.Members userID with
  | none => exact ⟨rfl, rfl, rfl⟩
  | some p =>
    dsimp only
    split <;> exact ⟨rfl, rfl, rfl⟩

theorem updateDetails_fields (g : Group) (name profilePicURL : String) :
    (g.UpdateDetails name profilePicURL).ID = g.ID ∧
    (g.UpdateDetails name profilePicURL).JoinTag = g.JoinTag ∧
    (g.UpdateDetails name profilePicURL).OwnerID = g.OwnerID ∧
    (g.UpdateDetails name profilePicURL).Members = g.Members := by
  unfold Group.UpdateDetails
  by_cases h1 : name = "" <;> by_cases h2 : profilePicURL = "" <;> simp [h1, h2]

theorem joinGroup_state (s : Stores) (groupID userID : String) :
    (ChatService.JoinGroup s groupID userID).1 = s ∨
    ∃ g user, mapGet s.groupRepo.groups groupID = some g ∧
      mapGet s.userRepo.users userID = some user ∧
      (ChatService.JoinGroup s groupID userID).1 =
        s.writeGroup groupID (g.AddMember s.heap user) := by
  unfold ChatService.JoinGroup InMemoryGroupRepository.GetByID InMemoryUserRepository.GetByID
  cases hg : mapGet s.groupRepo.groups groupID with
  | none => exact Or.inl rfl
  | some g =>
    cases hu : mapGet s.userRepo.users userID with
    | none => exact Or.inl rfl
    | some user =>
      refine Or.inr ⟨g, user, rfl, rfl, ?_⟩
      dsimp only
      split <;> rfl

theorem leaveGroup_state (s : Stores) (groupID userID : String) (rnd : Nat) :
    (ChatService.LeaveGroup s groupID userID rnd).1 = s ∨
    ∃ g, mapGet s.groupRepo.groups groupID = some g ∧
      (ChatService.LeaveGroup s groupID userID rnd).1 =
        s.writeGroup groupID (g.RemoveMember userID rnd).1 := by
  unfold ChatService.LeaveGroup InMemoryGroupRepository.GetByID
  cases hg : mapGet s.groupRepo.groups groupID with
  | none => exact Or.inl rfl
  | some g =>
    refine Or.inr ⟨g, rfl, ?_⟩
    dsimp only
    rcases hr : g.RemoveMember userID rnd with ⟨g', res⟩
    cases res with
    | error e => rfl
    | ok o =>
      dsimp only
      split
      · rfl
      · split <;> rfl

theorem updateGroupDetails_state (s : Stores) (groupID name profilePicURL : String) :
    (ChatService.UpdateGroupDetails s groupID name profilePicURL).1 = s ∨
    ∃ g, mapGet s.groupRepo.groups groupID = some g ∧
      (ChatService.UpdateGroupDetails s groupID name profilePicURL).1 =
        s.writeGroup groupID (g.UpdateDetails name profilePicURL) := by
  unfold ChatService.UpdateGroupDetails InMemoryGroupRepository.GetByID
  cases hg : mapGet s.groupRepo.groups groupID with
  | none => exact Or.inl rfl
  | some g =>
    refine Or.inr ⟨g, rfl, ?_⟩
    dsimp only
    split <;> rfl

theorem deref_append_of_lt (heap l : List User) (p : Nat) (h : p < heap.length) :
    deref (heap ++ l) p = deref heap p := by
  simp [deref, List.getD_eq_getElem?_getD, List.getElem?_append_left h]

theorem deref_append_length (heap : List User) (u : User) :
    deref (heap ++ [u]) heap.length = u := by
  simp [deref, List.getD_eq_getElem?_getD]

theorem updateProfile_ID (u : User) (displayName profilePicURL : String) :
    (u.UpdateProfile displayName profilePicURL).ID = u.ID := by
  unfold User.UpdateProfile
  by_cases h1 : displayName = "" <;> by_cases h2 : profilePicURL = "" <;> simp [h1, h2]

theorem deref_set_ID (heap : List User) (p q : Nat) (u : User)
    (hu : u.ID = (deref heap p).ID) : (deref (heap.set p u) q).ID = (deref heap q).ID := by
  by_cases hpq : p = q
  · subst hpq
    by_cases hlt : p < heap.length
    · simp [deref, List.getD_eq_getElem?_getD, List.getElem?_set_self, hlt] at hu ⊢
      exact hu
    · have : heap.set p u = heap := by
        apply List.set_eq_of_length_le
        omega
      rw [this]
  · simp [deref, List.getD_eq_getElem?_getD, List.getElem?_set_ne hpq]

theorem createGroup_ok (s : Stores) (name joinTag ownerID groupID : String) (now owner : Nat)
    (hown : mapGet s.userRepo.users ownerID = some owner)
    (htag : mapGet s.groupRepo.tags joinTag = none)
    (hfresh : mapGet s.groupRepo.groups groupID = none) :
    ChatService.CreateGroup s name joinTag ownerID groupID now =
      ({ s with groupRepo :=
          { groups := mapSet s.groupRepo.groups groupID
              (createdGroup s name joinTag groupID now owner),
            tags := mapSet s.groupRepo.tags joinTag groupID } },
        .ok (createdGroup s name joinTag groupID now owner)) := by
  simp [ChatService.CreateGroup, InMemoryUserRepository.GetByID, InMemoryGroupRepository.GetByTag,
    InMemoryGroupRepository.Add, hown, htag, hfresh, createdGroup, NewGroup, Group.AddMember]

theorem createGroup_state (s : Stores) (name joinTag ownerID groupID : String) (now : Nat) :
    (ChatService.CreateGroup s name joinTag ownerID groupID now).1 = s ∨
    ∃ owner, mapGet s.userRepo.users ownerID = some owner ∧
      mapGet s.groupRepo.tags joinTag = none ∧ mapGet s.groupRepo.groups groupID = none := by
  cases hown : mapGet s.userRepo.users ownerID with
  | none =>
    left
    simp [ChatService.CreateGroup, InMemoryUserRepository.GetByID, hown]
  | some owner =>
    cases htag : mapGet s.groupRepo.tags joinTag with
    | some k =>
      left
      simp [ChatService.CreateGroup, InMemoryUserRepository.GetByID,
        InMemoryGroupRepository.GetByTag, hown, htag]
    | none =>
      cases hfresh : mapGet s.groupRepo.groups groupID with
      | some g =>
        left
        simp [ChatService.CreateGroup, InMemoryUserRepository.GetByID,
          InMemoryGroupRepository.GetByTag, InMemoryGroupRepository.Add, hown, htag, hfresh,
          NewGroup, Group.AddMember]
      | none => exact Or.inr ⟨owner, rfl, rfl, rfl⟩

theorem storeInv_createGroup {s : Stores} (hinv : StoreInv s)
    (name joinTag ownerID groupID : String) (now : Nat) :
    StoreInv (ChatService.CreateGroup s name joinTag ownerID groupID now).1 := by
  rcases createGroup_state s name joinTag ownerID groupID now with h | ⟨owner, hown, htag, hfresh⟩
  · rw [h]
    exact hinv
  · rw [createGroup_ok s name joinTag ownerID groupID now owner hown htag hfresh]
    have hgid : (createdGroup s name joinTag groupID now owner).ID = groupID := rfl
    have hgtag : (createdGroup s name joinTag groupID now owner).JoinTag = joinTag := rfl
    constructor
    · exact hinv.userKey
    · intro k x hx
      by_cases hk : k = groupID
      · subst hk
        simp only [mapGet_mapSet_self, Option.some.injEq] at hx
        subst hx
        exact hgid
      · simp only [mapGet_mapSet_ne _ _ _ _ hk] at hx
        exact hinv.groupKey _ _ hx
    · intro k x hx
      by_cases hk : k = groupID
      · subst hk
        simp only [mapGet_mapSet_self, Option.some.injEq] at hx
        subst hx
        simp only [hgtag, mapGet_mapSet_self]
      · simp only [mapGet_mapSet_ne _ _ _ _ hk] at hx
        have hold := hinv.groupTag _ _ hx
        have hne : x.JoinTag ≠ joinTag := by
          intro heq
          rw [heq, htag] at hold
          cases hold
        simp only [mapGet_mapSet_ne _ _ _ _ hne]
        exact hold
    · intro t k ht
      by_cases htt : t = joinTag
      · subst htt
        simp only [mapGet_mapSet_self, Option.some.injEq] at ht
        subst ht
        exact ⟨_, mapGet_mapSet_self _ _ _, hgtag⟩
      · simp only [mapGet_mapSet_ne _ _ _ _ htt] at ht
        obtain ⟨x, hx, hxt⟩ := hinv.tagGroup t k ht
        have hk : k ≠ groupID := by
          intro heq
          rw [heq, hfresh] at hx
          cases hx
        exact ⟨x, by simpa only [mapGet_mapSet_ne _ _ _ _ hk] using hx, hxt⟩

theorem storeInv_removeGroup {s : Stores} (hinv : StoreInv s) (groupID : String) :
    StoreInv { s with groupRepo := (s.groupRepo.Remove groupID).1 } := by
  unfold InMemoryGroupRepository.Remove
  cases hg : mapGet s.groupRepo.groups groupID with
  | none => exact hinv
  | some g =>
    have gtag := hinv.groupTag _ _ hg
    constructor
    · exact hinv.userKey
    · intro k x hx
      dsimp only at hx
      by_cases hk : k = groupID
      · subst hk
        rw [mapGet_mapDelete_self] at hx
        cases hx
      · rw [mapGet_mapDelete_ne _ _ _ hk] at hx
        exact hinv.groupKey _ _ hx
    · intro k x hx
      dsimp only at hx ⊢
      by_cases hk : k = groupID
      · subst hk
        rw [mapGet_mapDelete_self] at hx
        cases hx
      · rw [mapGet_mapDelete_ne _ _ _ hk] at hx
        have hold := hinv.groupTag _ _ hx
        have hne : x.JoinTag ≠ g.JoinTag := by
          intro heq
          rw [heq, gtag] at hold
          exact hk (Option.some.inj hold).symm
        rw [mapGet_mapDelete_ne _ _ _ hne]
        exact hold
    · intro t k ht
      dsimp only at ht ⊢
      by_cases htt : t = g.JoinTag
      · subst htt
        rw [mapGet_mapDelete_self] at ht
        cases ht
      · rw [mapGet_mapDelete_ne _ _ _ htt] at ht
        obtain ⟨x, hx, hxt⟩ := hinv.tagGroup t k ht
        have hk : k ≠ groupID := by
          intro heq
          subst heq
          rw [hg] at hx
          cases hx
          exact htt hxt.symm
        exact ⟨x, by rw [mapGet_mapDelete_ne _ _ _ hk]; exact hx, hxt⟩

theorem storeInv_registerUser {s : Stores} (hinv : StoreInv s)
    (userID displayName publicKey : String) (now : Nat) :
    StoreInv (ChatService.RegisterUser s userID displayName publicKey now).1 := by
  unfold ChatService.RegisterUser InMemoryUserRepository.GetByID
  cases hu : mapGet s.userRepo.users userID with
  | some p => exact hinv
  | none =>
    simp only [InMemoryUserRepository.Add, deref_append_length, NewUser, hu]
    constructor
    · intro k p hp
      dsimp only at hp ⊢
      by_cases hk : k = userID
      · subst hk
        simp only [mapGet_mapSet_self, Option.some.injEq] at hp
        subst hp
        simp [deref_append_length]
      · rw [mapGet_mapSet_ne _ _ _ _ hk] at hp
        obtain ⟨hlt, hid⟩ := hinv.userKey _ _ hp
        refine ⟨by simp; omega, ?_⟩
        rw [deref_append_of_lt _ _ _ hlt]
        exact hid
    · exact hinv.groupKey
    · exact hinv.groupTag
    · exact hinv.tagGroup

theorem storeInv_unregisterUser {s : Stores} (hinv : StoreInv s) (userID : String) :
    StoreInv (ChatService.UnregisterUser s userID).1 := by
  unfold ChatService.UnregisterUser InMemoryUserRepository.Remove
  cases hu : mapGet s.userRepo.users userID with
  | none => exact hinv
  | some p =>
    constructor
    · intro k q hq
      dsimp only at hq ⊢
      by_cases hk : k = userID
      · subst hk
        rw [mapGet_mapDelete_self] at hq
        cases hq
      · rw [mapGet_mapDelete_ne _ _ _ hk] at hq
        exact hinv.userKey _ _ hq
    · exact hinv.groupKey
    · exact hinv.groupTag
    · exact hinv.tagGroup

theorem storeInv_updateUserProfile {s : Stores} (hinv : StoreInv s)
    (userID displayName profilePicURL : String) :
    StoreInv (ChatService.UpdateUserProfile s userID displayName profilePicURL).1 := by
  unfold ChatService.UpdateUserProfile InMemoryUserRepository.GetByID
  cases hu : mapGet s.userRepo.users userID with
  | none => exact hinv
  | some p =>
    constructor
    · intro k q hq
      dsimp only at hq ⊢
      obtain ⟨hlt, hid⟩ := hinv.userKey _ _ hq
      refine ⟨by simpa using hlt, ?_⟩
      rw [deref_set_ID _ _ _ _ (updateProfile_ID _ _ _)]
      exact hid
    · exact hinv.groupKey
    · exact hinv.groupTag
    · exact hinv.tagGroup

theorem storeInv_joinGroup {s : Stores} (hinv : StoreInv s) (groupID userID : String) :
    StoreInv (ChatService.JoinGroup s groupID userID).1 := by
  rcases joinGroup_state s groupID userID with h | ⟨g, user, hg, _, h⟩
  · rw [h]; exact hinv
  · rw [h]; exact storeInv_writeGroup hinv hg rfl rfl

theorem storeInv_leaveGroup {s : Stores} (hinv : StoreInv s) (groupID userID : String)
    (rnd : Nat) : StoreInv (ChatService.LeaveGroup s groupID userID rnd).1 := by
  rcases leaveGroup_state s groupID userID rnd with h | ⟨g, hg, h⟩
  · rw [h]; exact hinv
  · rw [h]
    exact storeInv_writeGroup hinv hg (removeMember_fields g userID rnd).1
      (removeMember_fields g userID rnd).2.1

theorem storeInv_updateGroupDetails {s : Stores} (hinv : StoreInv s)
    (groupID name profilePicURL : String) :
    StoreInv (ChatService.UpdateGroupDetails s groupID name profilePicURL).1 := by
  rcases updateGroupDetails_state s groupID name profilePicURL with h | ⟨g, hg, h⟩
  · rw [h]; exact hinv
  · rw [h]
    exact storeInv_writeGroup hinv hg (updateDetails_fields g name profilePicURL).1
      (updateDetails_fields g name profilePicURL).2.1

theorem storeInv_apply {s : Stores} (hinv : StoreInv s) (c : Call) : StoreInv (c.apply s) := by
  cases c with
  | registerUser a b c d => exact storeInv_registerUser hinv a b c d
  | unregisterUser a => exact storeInv_unregisterUser hinv a
  | createGroup a b c d e => exact storeInv_createGroup hinv a b c d e
  | joinGroup a b => exact storeInv_joinGroup hinv a b
  | leaveGroup a b c => exact storeInv_leaveGroup hinv a b c
  | updateGroupDetails a b c => exact storeInv_updateGroupDetails hinv a b c
  | updateUserProfile a b c => exact storeInv_updateUserProfile hinv a b c
  | removeGroup a => exact storeInv_removeGroup hinv a

/-- Every state reached from a state with the invariant has the invariant. -/
theorem storeInv_runCalls {s : Stores} (hinv : StoreInv s) (calls : List Call) :
    StoreInv (runCalls s calls) := by
  induction calls generalizing s with
  | nil => exact hinv
  | cons c cs ih => exact ih (storeInv_apply hinv c)

/-- Every state reached from the empty stores has the repository invariant. -/
theorem storeInv_reachable (calls : List Call) : StoreInv (runCalls Stores.empty calls) :=
  storeInv_runCalls storeInv_empty calls

theorem storeInv_friendsStores : StoreInv friendsStores := storeInv_reachable _

theorem storeInv_lastMemberStores : StoreInv lastMemberStores :=
  storeInv_runCalls storeInv_friendsStores _

theorem storeInv_emptiedStores : StoreInv emptiedStores :=
  storeInv_runCalls storeInv_friendsStores _

theorem mapGet_mem {V : Type} (m : GoMap V) (k : String) (v : V) (h : mapGet m k = some v) :
    (k, v) ∈ m := by
  induction m with
  | nil => simp [mapGet] at h
  | cons e m ih =>
    obtain ⟨k', v'⟩ := e
    by_cases hk : k' = k
    · subst hk
      simp [mapGet] at h
      simp [h]
    · simp [mapGet, hk] at h
      exact List.mem_cons_of_mem _ (ih h)

/-- A property checked on every stored value holds for every lookup result. -/
theorem forall_mapGet_of_all {V : Type} (m : GoMap V) (p : V → Bool)
    (h : (mapValues m).all p = true) : ∀ k v, mapGet m k = some v → p v = true := by
  intro k v hv
  have hmem := mapGet_mem m k v hv
  rw [List.all_eq_true] at h
  exact h v (List.mem_map.2 ⟨(k, v), hmem, rfl⟩)

theorem getD_mod_mem (l : List String) (h : 0 < l.length) (rnd : Nat) :
    l.getD (rnd % l.length) "" ∈ l := by
  have hlt : rnd % l.length < l.length := Nat.mod_lt _ h
  rw [List.getD_eq_getElem l "" hlt]
  exact List.getElem_mem hlt

/-- Every key can be the pick: the index `rnd % len` reaches each position. -/
theorem getD_mod_reaches (l : List String) (x : String) (h : x ∈ l) :
    ∃ rnd, l.getD (rnd % l.length) "" = x := by
  obtain ⟨i, hi, hx⟩ := List.getElem_of_mem h
  refine ⟨i, ?_⟩
  rw [Nat.mod_eq_of_lt hi, List.getD_eq_getElem l "" hi]
  exact hx

theorem length_mapKeys {V : Type} (m : GoMap V) : (mapKeys m).length = m.length := by
  simp [mapKeys]

/-! ## Group.RemoveMember -/

/-- C4. Ownership transfer: when the owner is a member and some other member
exists, `RemoveMember` of the owner succeeds for every value of the random
source, the returned ID is the new `OwnerID`, it is one of the remaining
members (the old members without the departed owner), and so differs from the
departed owner. -/
theorem removeMember_owner_transfers (g : Group) (rnd : Nat)
    (hown : g.OwnerID ∈ g.GetMemberIDs)
    (hother : ∃ m, m ∈ g.GetMemberIDs ∧ m ≠ g.OwnerID) :
    ∃ newOwnerID,
      (g.RemoveMember g.OwnerID rnd).2 = .ok newOwnerID ∧
      (g.RemoveMember g.OwnerID rnd).1.OwnerID = newOwnerID ∧
      newOwnerID ∈ (g.RemoveMember g.OwnerID rnd).1.GetMemberIDs ∧
      newOwnerID ≠ g.OwnerID ∧
      (∀ m, m ∈ (g.RemoveMember g.OwnerID rnd).1.GetMemberIDs ↔
        m ∈ g.GetMemberIDs ∧ m ≠ g.OwnerID) := by
  obtain ⟨p, hp⟩ := (mem_mapKeys_iff g.Members g.OwnerID).1 hown
  obtain ⟨m, hm, hne⟩ := hother
  have hm' : m ∈ mapKeys (mapDelete g.Members g.OwnerID) :=
    (mem_mapKeys_mapDelete _ _ _).2 ⟨hm, hne⟩
  have hlen : 0 < (mapDelete g.Members g.OwnerID).length := by
    rw [← length_mapKeys]
    exact List.length_pos_of_mem hm'
  have hpick := getD_mod_mem (mapKeys (mapDelete g.Members g.OwnerID))
    (by rw [length_mapKeys]; exact hlen) rnd
  have hrm : g.RemoveMember g.OwnerID rnd =
      ({ g with Members := mapDelete g.Members g.OwnerID,
                OwnerID := (mapKeys (mapDelete g.Members g.OwnerID)).getD
                  (rnd % (mapKeys (mapDelete g.Members g.OwnerID)).length) "" },
        .ok ((mapKeys (mapDelete g.Members g.OwnerID)).getD
                  (rnd % (mapKeys (mapDelete g.Members g.OwnerID)).length) "")) := by
    simp [Group.RemoveMember, hp, hlen]
  rw [hrm]
  refine ⟨_, rfl, rfl, hpick, ?_, ?_⟩
  · exact ((mem_mapKeys_mapDelete _ _ _).1 hpick).2
  · intro x
    exact mem_mapKeys_mapDelete _ _ _

/-- Witness of C4 on a group owned by `u1` with members `u1`, `u2`, `u3`. -/
theorem removeMember_owner_transfers_witness :
    ∃ newOwnerID,
      (Group.RemoveMember ⟨"g1", "Friends", "abc123", "", "u1",
          [("u1", 0), ("u2", 1), ("u3", 2)], 0⟩ "u1" 5).2 = .ok newOwnerID ∧
      newOwnerID ≠ "u1" :=
  let g : Group := ⟨"g1", "Friends", "abc123", "", "u1", [("u1", 0), ("u2", 1), ("u3", 2)], 0⟩
  match removeMember_owner_transfers g 5 (by decide) ⟨"u2", by decide, by decide⟩ with
  | ⟨o, h1, _, _, h4, _⟩ => ⟨o, h1, h4⟩

/-! ## ChatService.LeaveGroup: failures -/

/-- C9. `LeaveGroup` for a user who is not a member of the stored group returns
an error for which `errors.Is(err, ErrMemberNotFound)` holds and leaves the
stores (so the member set and owner of the group) as they were; for a group ID
that is not stored it returns `ErrGroupNotFound` and changes nothing. -/
theorem leaveGroup_failure_atomic (s : Stores) (groupID userID : String) (rnd : Nat) :
    (∀ g, mapGet s.groupRepo.groups groupID = some g → userID ∉ g.GetMemberIDs →
      (∃ err, (ChatService.LeaveGroup s groupID userID rnd).2 = .error err ∧
        err.Is .ErrMemberNotFound = true) ∧
      (ChatService.LeaveGroup s groupID userID rnd).1 = s) ∧
    (mapGet s.groupRepo.groups groupID = none →
      (ChatService.LeaveGroup s groupID userID rnd).2 = .error .ErrGroupNotFound ∧
      (ChatService.LeaveGroup s groupID userID rnd).1 = s) := by
  constructor
  · intro g hg hmem
    have hnone : mapGet g.Members userID = none := (mapGet_eq_none_iff _ _).2 hmem
    have hrm : g.RemoveMember userID rnd = (g, .error .ErrMemberNotFound) := by
      simp [Group.RemoveMember, hnone]
    have hw : s.writeGroup groupID g = s := by
      simp [Stores.writeGroup, mapSet_eq_self _ _ _ hg]
    simp [ChatService.LeaveGroup, InMemoryGroupRepository.GetByID, hg, hrm, hw, GoError.Is]
  · intro hg
    simp [ChatService.LeaveGroup, InMemoryGroupRepository.GetByID, hg]

/-! ## ChatService.CreateGroup -/

theorem createGroup_tag_taken (s : Stores) (name joinTag ownerID groupID holder : String)
    (now : Nat) (htag : mapGet s.groupRepo.tags joinTag = some holder) :
    (∃ err, (ChatService.CreateGroup s name joinTag ownerID groupID now).2 = .error err) ∧
    (ChatService.CreateGroup s name joinTag ownerID groupID now).1 = s := by
  cases hown : mapGet s.userRepo.users ownerID <;>
    simp [ChatService.CreateGroup, InMemoryUserRepository.GetByID,
      InMemoryGroupRepository.GetByTag, hown, htag]

theorem tag_free_of_not_held {s : Stores} (hinv : StoreInv s) {joinTag : String}
    (h : ∀ id g, mapGet s.groupRepo.groups id = some g → g.JoinTag ≠ joinTag) :
    mapGet s.groupRepo.tags joinTag = none := by
  cases ht : mapGet s.groupRepo.tags joinTag with
  | none => rfl
  | some k =>
    obtain ⟨g, hg, hgt⟩ := hinv.tagGroup _ _ ht
    exact absurd hgt (h k g hg)

theorem createGroup_held_tag (s : Stores) (hinv : StoreInv s)
    (name t ownerID groupID : String) (now : Nat)
    (hheld : ∃ id g, mapGet s.groupRepo.groups id = some g ∧ g.JoinTag = t) :
    (∃ err, (ChatService.CreateGroup s name t ownerID groupID now).2 = .error err) ∧
    (ChatService.CreateGroup s name t ownerID groupID now).1 = s := by
  obtain ⟨id, g, hg, hgt⟩ := hheld
  have htag := hinv.groupTag _ _ hg
  rw [hgt] at htag
  exact createGroup_tag_taken s name t ownerID groupID id now htag

/-- C1. Join-tag uniqueness: in every state with the repository invariant in
which some stored group (whatever its members) has join tag `t`, `CreateGroup`
with tag `t`, any name, any owner ID and any generated ID returns an error and
leaves the stores, the group repository included, exactly as they were. -/
theorem createGroup_held_tag_fails (s : Stores) (hinv : StoreInv s)
    (name t ownerID groupID : String) (now : Nat)
    (hheld : ∃ id g, mapGet s.groupRepo.groups id = some g ∧ g.JoinTag = t) :
    (∃ err, (ChatService.CreateGroup s name t ownerID groupID now).2 = .error err) ∧
    (ChatService.CreateGroup s name t ownerID groupID now).1 = s :=
  createGroup_held_tag s hinv name t ownerID groupID now hheld

/-- Witness of C1: the tag of the emptied group `g1` cannot be taken by `u3`. -/
theorem createGroup_held_tag_fails_witness :
    (∃ id g, mapGet emptiedStores.groupRepo.groups id = some g ∧ g.JoinTag = "abc123") ∧
    (ChatService.CreateGroup emptiedStores "Other" "abc123" "u3" "g2" 9).1 = emptiedStores :=
  ⟨⟨"g1", _, rfl, rfl⟩,
   (createGroup_held_tag_fails emptiedStores storeInv_emptiedStores "Other" "abc123" "u3" "g2" 9
      ⟨"g1", _, rfl, rfl⟩).2⟩

/-- C2, as stated, fails: with `g1` holding tag `abc123`, `CreateGroup` with the
tag `ABC123`, equal to it up to letter case, and the registered owner `u1`
succeeds and stores a second group. -/
theorem createGroup_case_variant_accepted :
    equalFoldASCII "abc123" "ABC123" = true ∧
    (mapGet friendsStores.groupRepo.groups "g1").map Group.JoinTag = some "abc123" ∧
    mapGet friendsStores.userRepo.users "u1" = some 0 ∧
    (ChatService.CreateGroup friendsStores "Other" "ABC123" "u1" "g2" 9).2 =
      .ok ⟨"g2", "Other", "ABC123", "", "u1", [("u1", 0)], 9⟩ ∧
    mapKeys (ChatService.CreateGroup friendsStores "Other" "ABC123" "u1" "g2" 9).1.groupRepo.groups
      = ["g1", "g2"] :=
  ⟨by decide, rfl, rfl, rfl, rfl⟩

/-- C2, amended. The duplicate-tag check of `CreateGroup` is an exact string
match: for a registered owner and a fresh generated ID, the call fails exactly
when some stored group has the very tag asked for, and then it changes nothing;
when no stored group has that exact tag (whatever tags equal it up to letter
case are held) it succeeds and stores the returned group under the tag. -/
theorem createGroup_tag_check_exact (s : Stores) (hinv : StoreInv s)
    (name t ownerID groupID : String) (now owner : Nat)
    (hown : mapGet s.userRepo.users ownerID = some owner)
    (hfresh : mapGet s.groupRepo.groups groupID = none) :
    ((∃ err, (ChatService.CreateGroup s name t ownerID groupID now).2 = .error err) ↔
      ∃ id g, mapGet s.groupRepo.groups id = some g ∧ g.JoinTag = t) ∧
    ((∃ id g, mapGet s.groupRepo.groups id = some g ∧ g.JoinTag = t) →
      (ChatService.CreateGroup s name t ownerID groupID now).1 = s) ∧
    ((∀ id g, mapGet s.groupRepo.groups id = some g → g.JoinTag ≠ t) →
      ∃ g, (ChatService.CreateGroup s name t ownerID groupID now).2 = .ok g ∧
        g.JoinTag = t ∧
        mapGet (ChatService.CreateGroup s name t ownerID groupID now).1.groupRepo.groups groupID
          = some g) := by
  refine ⟨⟨?_, ?_⟩, ?_, ?_⟩
  · rintro ⟨err, herr⟩
    by_contra hno
    have hfree : mapGet s.groupRepo.tags t = none := by
      apply tag_free_of_not_held hinv
      intro id g hg hgt
      exact hno ⟨id, g, hg, hgt⟩
    rw [createGroup_ok s name t ownerID groupID now owner hown hfree hfresh] at herr
    cases herr
  · intro hheld
    exact (createGroup_held_tag s hinv name t ownerID groupID now hheld).1
  · intro hheld
    exact (createGroup_held_tag s hinv name t ownerID groupID now hheld).2
  · intro hno
    have hfree := tag_free_of_not_held hinv hno
    rw [createGroup_ok s name t ownerID groupID now owner hown hfree hfresh]
    exact ⟨_, rfl, rfl, mapGet_mapSet_self _ _ _⟩

/-- Witness of the amended C2 on the stores holding `g1` with tag `abc123`. -/
theorem createGroup_tag_check_exact_witness :
    mapGet friendsStores.userRepo.users "u1" = some 0 ∧
    mapGet friendsStores.groupRepo.groups "g2" = none ∧
    ((∃ err, (ChatService.CreateGroup friendsStores "Other" "abc123" "u1" "g2" 9).2
        = .error err) ↔
      ∃ id g, mapGet friendsStores.groupRepo.groups id = some g ∧ g.JoinTag = "abc123") :=
  ⟨rfl, rfl,
   (createGroup_tag_check_exact friendsStores storeInv_friendsStores "Other" "abc123" "u1" "g2"
      9 0 rfl rfl).1⟩

/-- C3. `CreateGroup` succeeds when the owner is registered, no stored group has
the join tag and the generated ID is not stored: the returned group has the
given name and tag, the generated ID, `OwnerID = ownerID` and the member IDs
`[ownerID]`, and afterwards `GetByID` on the ID and `GetByTag` on the tag both
return it. -/
theorem createGroup_success (s : Stores) (hinv : StoreInv s)
    (name joinTag ownerID groupID : String) (now owner : Nat)
    (hown : mapGet s.userRepo.users ownerID = some owner)
    (htag : ∀ id g, mapGet s.groupRepo.groups id = some g → g.JoinTag ≠ joinTag)
    (hfresh : mapGet s.groupRepo.groups groupID = none) :
    ∃ g, (ChatService.CreateGroup s name joinTag ownerID groupID now).2 = .ok g ∧
      g.ID = groupID ∧ g.Name = name ∧ g.JoinTag = joinTag ∧ g.OwnerID = ownerID ∧
      g.GetMemberIDs = [ownerID] ∧
      (ChatService.CreateGroup s name joinTag ownerID groupID now).1.groupRepo.GetByID groupID
        = .ok g ∧
      (ChatService.CreateGroup s name joinTag ownerID groupID now).1.groupRepo.GetByTag joinTag
        = .ok (some g) := by
  have hfree := tag_free_of_not_held hinv htag
  have hid : (deref s.heap owner).ID = ownerID := (hinv.userKey _ _ hown).2
  rw [createGroup_ok s name joinTag ownerID groupID now owner hown hfree hfresh]
  refine ⟨_, rfl, rfl, rfl, rfl, ?_, ?_, ?_, ?_⟩
  · simp [createdGroup, NewGroup, Group.AddMember, hid]
  · simp [createdGroup, NewGroup, Group.AddMember, Group.GetMemberIDs, mapSet, mapKeys, hid]
  · simp [InMemoryGroupRepository.GetByID, mapGet_mapSet_self]
  · simp [InMemoryGroupRepository.GetByTag, mapGet_mapSet_self]

/-- Witness of C3: `u3` creates the group `g2` with the unused tag `xyz`. -/
theorem createGroup_success_witness :
    mapGet friendsStores.userRepo.users "u3" = some 2 ∧
    ∃ g, (ChatService.CreateGroup friendsStores "Other" "xyz" "u3" "g2" 9).2 = .ok g ∧
      g.OwnerID = "u3" ∧ g.GetMemberIDs = ["u3"] :=
  ⟨rfl,
   match createGroup_success friendsStores storeInv_friendsStores "Other" "xyz" "u3" "g2" 9 2
      rfl
      (fun id g h => by
        simpa using forall_mapGet_of_all friendsStores.groupRepo.groups
          (fun g => decide (g.JoinTag ≠ "xyz")) (by decide) id g h)
      rfl with
   | ⟨g, h1, _, _, _, h5, h6, _⟩ => ⟨g, h1, h5, h6⟩⟩

/-! ## Ownership after a rejoin -/

/-- C5 at a failing run. After the membership calls `rejoinCalls` (`u1` creates
`g1` and leaves, `u2` joins) the stored group `g1` has the member IDs `[u2]`
and the owner `u1`: a non-empty group whose owner is not a member. -/
theorem owner_not_member_after_rejoin :
    rejoinCalls.all Call.isMembershipCall = true ∧
    (mapGet (runCalls Stores.empty rejoinCalls).groupRepo.groups "g1").map
      (fun g => (g.GetMemberIDs, g.OwnerID)) = some (["u2"], "u1") ∧
    "u1" ∉ ["u2"] :=
  ⟨rfl, rfl, by decide⟩

/-- C6 at a failing run. In the scenario `u1` creates, `u2` joins, `u1` leaves,
`u2` leaves, the join of the registered user `u3` succeeds and makes `u3` the
only member, and the group it returns and stores still has `OwnerID = u2`. -/
theorem join_emptied_group_keeps_owner :
    (mapGet emptiedStores.groupRepo.groups "g1").map (fun g => (g.GetMemberIDs, g.OwnerID))
      = some ([], "u2") ∧
    (ChatService.JoinGroup emptiedStores "g1" "u3").2 =
      .ok ⟨"g1", "Friends", "abc123", "", "u2", [("u3", 2)], 4⟩ ∧
    (ChatService.JoinGroup emptiedStores "g1" "u3").1.groupRepo.GetByID "g1" =
      .ok ⟨"g1", "Friends", "abc123", "", "u2", [("u3", 2)], 4⟩ :=
  ⟨rfl, rfl, rfl⟩

/-! ## ChatService.JoinGroup -/

theorem joinGroup_ok (s : Stores) (hinv : StoreInv s) (groupID userID : String) (g : Group)
    (user : Nat) (hg : mapGet s.groupRepo.groups groupID = some g)
    (hu : mapGet s.userRepo.users userID = some user) :
    ChatService.JoinGroup s groupID userID =
      (s.writeGroup groupID { g with Members := mapSet g.Members userID user },
        .ok { g with Members := mapSet g.Members userID user }) := by
  have hid : (deref s.heap user).ID = userID := (hinv.userKey _ _ hu).2
  have hgid : g.ID = groupID := hinv.groupKey _ _ hg
  simp [ChatService.JoinGroup, InMemoryGroupRepository.GetByID, InMemoryUserRepository.GetByID,
    InMemoryGroupRepository.Save, hg, hu, Group.AddMember, hid, hgid, Stores.writeGroup,
    mapGet_mapSet_self]

/-- C7. Join idempotence: when the registered user is already a member of the
stored group, `JoinGroup` succeeds and the group it returns and stores has the
same list of member IDs, the same member count and the same owner; and for any
stored group and registered user, a second `JoinGroup` returns the same group
as the first and leaves the stores as the first left them. -/
theorem joinGroup_idempotent (s : Stores) (hinv : StoreInv s) (groupID userID : String)
    (g : Group) (user : Nat) (hg : mapGet s.groupRepo.groups groupID = some g)
    (hu : mapGet s.userRepo.users userID = some user) :
    (userID ∈ g.GetMemberIDs →
      ∃ g', (ChatService.JoinGroup s groupID userID).2 = .ok g' ∧
        (ChatService.JoinGroup s groupID userID).1.groupRepo.GetByID groupID = .ok g' ∧
        g'.GetMemberIDs = g.GetMemberIDs ∧ g'.Members.length = g.Members.length ∧
        g'.OwnerID = g.OwnerID) ∧
    ChatService.JoinGroup (ChatService.JoinGroup s groupID userID).1 groupID userID =
      ChatService.JoinGroup s groupID userID := by
  have h1 := joinGroup_ok s hinv groupID userID g user hg hu
  constructor
  · intro hmem
    rw [h1]
    refine ⟨_, rfl, ?_, ?_, ?_, rfl⟩
    · simp [InMemoryGroupRepository.GetByID, Stores.writeGroup, mapGet_mapSet_self]
    · exact mapKeys_mapSet_of_mem _ _ _ hmem
    · exact length_mapSet_of_mem _ _ _ hmem
  · have hinv1 : StoreInv (ChatService.JoinGroup s groupID userID).1 :=
      storeInv_joinGroup hinv groupID userID
    rw [h1] at hinv1 ⊢
    have hg1 : mapGet (s.writeGroup groupID
        { g with Members := mapSet g.Members userID user }).groupRepo.groups groupID =
        some { g with Members := mapSet g.Members userID user } := by
      simp [Stores.writeGroup, mapGet_mapSet_self]
    rw [joinGroup_ok _ hinv1 groupID userID _ user hg1 hu]
    simp only [mapSet_mapSet]
    have hw : ∀ (t : Stores) (x : Group), mapGet t.groupRepo.groups groupID = some x →
        t.writeGroup groupID x = t := by
      intro t x hx
      simp [Stores.writeGroup, mapSet_eq_self _ _ _ hx]
    rw [hw _ _ hg1]

/-- Witness of C7: `u2`, a member of `g1`, joins `g1` again. -/
theorem joinGroup_idempotent_witness :
    "u2" ∈ ["u1", "u2"] ∧
    ChatService.JoinGroup (ChatService.JoinGroup friendsStores "g1" "u2").1 "g1" "u2" =
      ChatService.JoinGroup friendsStores "g1" "u2" ∧
    ∃ g', (ChatService.JoinGroup friendsStores "g1" "u2").2 = .ok g' ∧
      g'.GetMemberIDs = ["u1", "u2"] ∧ g'.OwnerID = "u1" :=
  have h := joinGroup_idempotent friendsStores storeInv_friendsStores "g1" "u2"
    ⟨"g1", "Friends", "abc123", "", "u1", [("u1", 0), ("u2", 1)], 4⟩ 1 rfl rfl
  ⟨by decide, h.2,
   match h.1 (by decide) with
   | ⟨g', h1, _, h3, _, h5⟩ => ⟨g', h1, h3, h5⟩⟩

/-- C8. The contract of `JoinGroup`: the result is `ErrGroupNotFound` exactly
when the group ID is not stored, `ErrUserNotFound` exactly when the group is
stored and the user ID is not, and in both cases the stores are unchanged;
otherwise the call succeeds, the returned group is the one now stored, its
member IDs are the old ones together with `userID`, its owner is the old one
and every other group is as before. -/
theorem joinGroup_contract (s : Stores) (hinv : StoreInv s) (groupID userID : String) :
    ((ChatService.JoinGroup s groupID userID).2 = .error .ErrGroupNotFound ↔
      mapGet s.groupRepo.groups groupID = none) ∧
    ((ChatService.JoinGroup s groupID userID).2 = .error .ErrUserNotFound ↔
      mapGet s.groupRepo.groups groupID ≠ none ∧ mapGet s.userRepo.users userID = none) ∧
    ((mapGet s.groupRepo.groups groupID = none ∨ mapGet s.userRepo.users userID = none) →
      (ChatService.JoinGroup s groupID userID).1 = s) ∧
    (∀ g user, mapGet s.groupRepo.groups groupID = some g →
      mapGet s.userRepo.users userID = some user →
      ∃ g', (ChatService.JoinGroup s groupID userID).2 = .ok g' ∧
        mapGet (ChatService.JoinGroup s groupID userID).1.groupRepo.groups groupID = some g' ∧
        (∀ m, m ∈ g'.GetMemberIDs ↔ m ∈ g.GetMemberIDs ∨ m = userID) ∧
        g'.OwnerID = g.OwnerID ∧
        (∀ k, k ≠ groupID →
          mapGet (ChatService.JoinGroup s groupID userID).1.groupRepo.groups k =
            mapGet s.groupRepo.groups k) ∧
        (ChatService.JoinGroup s groupID userID).1.userRepo = s.userRepo) := by
  cases hg : mapGet s.groupRepo.groups groupID with
  | none =>
    simp [ChatService.JoinGroup, InMemoryGroupRepository.GetByID, hg]
  | some g =>
    cases hu : mapGet s.userRepo.users userID with
    | none =>
      simp [ChatService.JoinGroup, InMemoryGroupRepository.GetByID,
        InMemoryUserRepository.GetByID, hg, hu]
    | some user =>
      rw [joinGroup_ok s hinv groupID userID g user hg hu]
      refine ⟨by simp, by simp, by simp, ?_⟩
      intro g₀ user₀ hg₀ hu₀
      cases hg₀
      cases hu₀
      refine ⟨_, rfl, ?_, ?_, rfl, ?_, rfl⟩
      · simp [Stores.writeGroup, mapGet_mapSet_self]
      · intro m
        exact mem_mapKeys_mapSet _ _ _ _
      · intro k hk
        simp [Stores.writeGroup, mapGet_mapSet_ne _ _ _ _ hk]

/-- Witness of C8: `u3` joins `g1`, whose members were `u1` and `u2`. -/
theorem joinGroup_contract_witness :
    mapGet friendsStores.groupRepo.groups "g1" =
      some ⟨"g1", "Friends", "abc123", "", "u1", [("u1", 0), ("u2", 1)], 4⟩ ∧
    mapGet friendsStores.userRepo.users "u3" = some 2 ∧
    ∃ g', (ChatService.JoinGroup friendsStores "g1" "u3").2 = .ok g' ∧
      (∀ m, m ∈ g'.GetMemberIDs ↔ m ∈ ["u1", "u2"] ∨ m = "u3") :=
  ⟨rfl, rfl,
   match (joinGroup_contract friendsStores storeInv_friendsStores "g1" "u3").2.2.2
      ⟨"g1", "Friends", "abc123", "", "u1", [("u1", 0), ("u2", 1)], 4⟩ 2 rfl rfl with
   | ⟨g', h1, _, h3, _⟩ => ⟨g', h1, h3⟩⟩

/-- Witness of C9: `u3` is not a member of `g1`, and no group `g9` is stored. -/
theorem leaveGroup_failure_atomic_witness :
    "u3" ∉ ["u1", "u2"] ∧
    (ChatService.LeaveGroup friendsStores "g1" "u3" 0).1 = friendsStores ∧
    mapGet friendsStores.groupRepo.groups "g9" = none ∧
    (ChatService.LeaveGroup friendsStores "g9" "u1" 0).2 = .error .ErrGroupNotFound :=
  ⟨by decide,
   ((leaveGroup_failure_atomic friendsStores "g1" "u3" 0).1
      ⟨"g1", "Friends", "abc123", "", "u1", [("u1", 0), ("u2", 1)], 4⟩ rfl (by decide)).2,
   rfl,
   ((leaveGroup_failure_atomic friendsStores "g9" "u1" 0).2 rfl).1⟩

/-! ## ChatService.LeaveGroup: the last member -/

theorem members_of_single_key (m : GoMap Nat) (u : String) (h : mapKeys m = [u]) :
    ∃ p, m = [(u, p)] := by
  match m, h with
  | [(k, p)], h =>
    simp [mapKeys] at h
    exact ⟨p, by rw [h]⟩

/-- C10. An emptied group is not deleted: when the stored group has the single
member `u`, `LeaveGroup` for `u` succeeds with an empty new-owner ID and a
group without members; that group is still returned by `GetByID` on its ID and
by `GetByTag` on its tag, `CreateGroup` with the tag fails for every name,
owner and generated ID, and `JoinGroup` by any registered user succeeds and
stores the group with exactly one member, that user. -/
theorem leaveGroup_last_member_keeps_group (s : Stores) (hinv : StoreInv s)
    (groupID u : String) (g : Group) (rnd : Nat)
    (hg : mapGet s.groupRepo.groups groupID = some g) (hone : g.GetMemberIDs = [u]) :
    ∃ g', (ChatService.LeaveGroup s groupID u rnd).2 = .ok (g', "") ∧
      g'.Members.length = 0 ∧
      (ChatService.LeaveGroup s groupID u rnd).1.groupRepo.GetByID groupID = .ok g' ∧
      (ChatService.LeaveGroup s groupID u rnd).1.groupRepo.GetByTag g.JoinTag = .ok (some g') ∧
      (∀ name ownerID newID now, ∃ err,
        (ChatService.CreateGroup (ChatService.LeaveGroup s groupID u rnd).1
          name g.JoinTag ownerID newID now).2 = .error err) ∧
      (∀ v user, mapGet (ChatService.LeaveGroup s groupID u rnd).1.userRepo.users v = some user →
        ∃ g'', (ChatService.JoinGroup (ChatService.LeaveGroup s groupID u rnd).1 groupID v).2
            = .ok g'' ∧
          (ChatService.JoinGroup (ChatService.LeaveGroup s groupID u rnd).1
            groupID v).1.groupRepo.GetByID groupID = .ok g'' ∧
          g''.Members.length = 1 ∧ g''.GetMemberIDs = [v]) := by
  obtain ⟨p, hp⟩ := members_of_single_key g.Members u hone
  have hrm : g.RemoveMember u rnd = ({ g with Members := [] }, .ok "") := by
    simp [Group.RemoveMember, hp, mapGet, mapDelete]
  have hleave : ChatService.LeaveGroup s groupID u rnd =
      (s.writeGroup groupID { g with Members := [] }, .ok ({ g with Members := [] }, "")) := by
    simp [ChatService.LeaveGroup, InMemoryGroupRepository.GetByID, hg, hrm, Group.IsEmpty]
  have hinv1 : StoreInv (s.writeGroup groupID { g with Members := [] }) :=
    storeInv_writeGroup hinv hg rfl rfl
  have hg1 : mapGet (s.writeGroup groupID { g with Members := [] }).groupRepo.groups groupID =
      some { g with Members := [] } := by
    simp [Stores.writeGroup, mapGet_mapSet_self]
  have htag : mapGet (s.writeGroup groupID { g with Members := [] }).groupRepo.tags g.JoinTag =
      some groupID := hinv.groupTag _ _ hg
  rw [hleave]
  refine ⟨_, rfl, rfl, ?_, ?_, ?_, ?_⟩
  · simp [InMemoryGroupRepository.GetByID, hg1]
  · simp [InMemoryGroupRepository.GetByTag, htag, hg1]
  · intro name ownerID newID now
    exact (createGroup_tag_taken _ name g.JoinTag ownerID newID groupID now htag).1
  · intro v user hv
    rw [joinGroup_ok _ hinv1 groupID v _ user hg1 hv]
    refine ⟨_, rfl, ?_, rfl, rfl⟩
    simp [InMemoryGroupRepository.GetByID, Stores.writeGroup, mapGet_mapSet_self]

/-- Witness of C10: `u2`, the last member of `g1`, leaves. -/
theorem leaveGroup_last_member_keeps_group_witness :
    (mapGet lastMemberStores.groupRepo.groups "g1").map Group.GetMemberIDs = some ["u2"] ∧
    ∃ g', (ChatService.LeaveGroup lastMemberStores "g1" "u2" 5).2 = .ok (g', "") ∧
      (ChatService.LeaveGroup lastMemberStores "g1" "u2" 5).1.groupRepo.GetByID "g1" = .ok g' :=
  ⟨rfl,
   match leaveGroup_last_member_keeps_group lastMemberStores storeInv_lastMemberStores "g1" "u2"
      ⟨"g1", "Friends", "abc123", "", "u2", [("u2", 1)], 4⟩ 5 rfl rfl with
   | ⟨g', h1, _, h3, _⟩ => ⟨g', h1, h3⟩⟩

/-! ## InMemoryGroupRepository.Remove -/

theorem storeInv_caseTwinStores : StoreInv caseTwinStores :=
  storeInv_runCalls storeInv_friendsStores _

/-- C11. Deletion is terminal and releases the tag: when group `g` is stored,
`Remove(g.ID)` succeeds; afterwards `GetByID(g.ID)` and `GetByTag(g.JoinTag)`
fail, `JoinGroup(g.ID, u)` returns `ErrGroupNotFound` for every `u`, and
`CreateGroup` with the tag of `g`, a registered owner and a generated ID that
is not stored succeeds and holds the tag.  `Remove` of an ID that is not stored
returns an error and leaves the repository as it was. -/
theorem remove_group_is_terminal (s : Stores) (hinv : StoreInv s) (groupID : String)
    (g : Group) (hg : mapGet s.groupRepo.groups groupID = some g) :
    (s.groupRepo.Remove g.ID).2 = none ∧
    (∃ err, ((Call.removeGroup g.ID).apply s).groupRepo.GetByID g.ID = .error err) ∧
    (∃ err, ((Call.removeGroup g.ID).apply s).groupRepo.GetByTag g.JoinTag = .error err) ∧
    (∀ u, (ChatService.JoinGroup ((Call.removeGroup g.ID).apply s) g.ID u).2
      = .error .ErrGroupNotFound) ∧
    (∀ name ownerID newID now owner,
      mapGet ((Call.removeGroup g.ID).apply s).userRepo.users ownerID = some owner →
      mapGet ((Call.removeGroup g.ID).apply s).groupRepo.groups newID = none →
      ∃ g2, (ChatService.CreateGroup ((Call.removeGroup g.ID).apply s)
          name g.JoinTag ownerID newID now).2 = .ok g2 ∧ g2.JoinTag = g.JoinTag ∧
        (ChatService.CreateGroup ((Call.removeGroup g.ID).apply s)
          name g.JoinTag ownerID newID now).1.groupRepo.GetByTag g.JoinTag = .ok (some g2)) ∧
    (∀ id, mapGet s.groupRepo.groups id = none →
      (∃ err, (s.groupRepo.Remove id).2 = some err) ∧ (s.groupRepo.Remove id).1 = s.groupRepo) := by
  have hid : g.ID = groupID := hinv.groupKey _ _ hg
  rw [hid]
  have hrm : s.groupRepo.Remove groupID =
      ({ groups := mapDelete s.groupRepo.groups groupID,
         tags := mapDelete s.groupRepo.tags g.JoinTag }, none) := by
    simp [InMemoryGroupRepository.Remove, hg]
  have hpost : (Call.removeGroup groupID).apply s =
      { s with groupRepo := { groups := mapDelete s.groupRepo.groups groupID,
                              tags := mapDelete s.groupRepo.tags g.JoinTag } } := by
    simp [Call.apply, hrm]
  rw [hpost, hrm]
  refine ⟨rfl, ?_, ?_, ?_, ?_, ?_⟩
  · simp [InMemoryGroupRepository.GetByID, mapGet_mapDelete_self]
  · simp [InMemoryGroupRepository.GetByTag, mapGet_mapDelete_self]
  · intro u
    simp [ChatService.JoinGroup, InMemoryGroupRepository.GetByID, mapGet_mapDelete_self]
  · intro name ownerID newID now owner hown hfresh
    rw [createGroup_ok _ name g.JoinTag ownerID newID now owner hown
      (mapGet_mapDelete_self _ _) hfresh]
    refine ⟨_, rfl, rfl, ?_⟩
    simp [InMemoryGroupRepository.GetByTag, mapGet_mapSet_self]
  · intro id hnone
    simp [InMemoryGroupRepository.Remove, hnone]

/-- Witness of C11: the emptied group `g1` is removed. -/
theorem remove_group_is_terminal_witness :
    mapGet emptiedStores.groupRepo.groups "g1" =
      some ⟨"g1", "Friends", "abc123", "", "u2", [], 4⟩ ∧
    (emptiedStores.groupRepo.Remove "g1").2 = none ∧
    (∀ u, (ChatService.JoinGroup ((Call.removeGroup "g1").apply emptiedStores) "g1" u).2
      = .error .ErrGroupNotFound) :=
  have h := remove_group_is_terminal emptiedStores storeInv_emptiedStores "g1"
    ⟨"g1", "Friends", "abc123", "", "u2", [], 4⟩ rfl
  ⟨rfl, h.1, h.2.2.2.1⟩

/-! ## InMemoryGroupRepository.GetByTag -/

/-- C12, as stated, fails: with `g1` stored under the tag `abc123`, the query
`ABC123`, equal to it up to letter case, is answered with a not-found error. -/
theorem getByTag_case_variant_not_found :
    equalFoldASCII "abc123" "ABC123" = true ∧
    (mapGet friendsStores.groupRepo.groups "g1").map Group.JoinTag = some "abc123" ∧
    friendsStores.groupRepo.GetByTag "ABC123" =
      .error (.errorf "group with tag ABC123 not found") :=
  ⟨by decide, rfl, rfl⟩

/-- C12, amended. Lookup by tag is an exact string match: `GetByTag(t)` returns
the stored group whose join tag is `t`, and a query that is the join tag of no
stored group fails with the not-found error, whatever stored tags equal it up
to letter case. -/
theorem getByTag_exact (s : Stores) (hinv : StoreInv s) (t : String) :
    (∀ id g, mapGet s.groupRepo.groups id = some g → g.JoinTag = t →
      s.groupRepo.GetByTag t = .ok (some g)) ∧
    ((∀ id g, mapGet s.groupRepo.groups id = some g → g.JoinTag ≠ t) →
      s.groupRepo.GetByTag t = .error (.errorf ("group with tag " ++ t ++ " not found"))) := by
  constructor
  · intro id g hg hgt
    have htag := hinv.groupTag _ _ hg
    rw [hgt] at htag
    simp [InMemoryGroupRepository.GetByTag, htag, hg]
  · intro hno
    simp [InMemoryGroupRepository.GetByTag, tag_free_of_not_held hinv hno]

/-- Witness of the amended C12: `g1` is found under its own tag `abc123`. -/
theorem getByTag_exact_witness :
    mapGet friendsStores.groupRepo.groups "g1" =
      some ⟨"g1", "Friends", "abc123", "", "u1", [("u1", 0), ("u2", 1)], 4⟩ ∧
    friendsStores.groupRepo.GetByTag "abc123" =
      .ok (some ⟨"g1", "Friends", "abc123", "", "u1", [("u1", 0), ("u2", 1)], 4⟩) :=
  ⟨rfl, (getByTag_exact friendsStores storeInv_friendsStores "abc123").1 "g1" _ rfl rfl⟩

/-! ## The group map and the tag index -/

theorem mapSet_of_none {V : Type} (m : GoMap V) (k : String) (v : V)
    (h : mapGet m k = none) : mapSet m k v = m ++ [(k, v)] := by
  induction m with
  | nil => rfl
  | cons e m ih =>
    obtain ⟨k', v'⟩ := e
    by_cases hk : k' = k
    · simp [mapGet, hk] at h
    · simp [mapGet, hk] at h
      simp [mapSet, hk, ih h]

theorem add_fails_or_appends (r : InMemoryGroupRepository) (group : Group) :
    ((∃ err, (r.Add group).2 = some err) ∧ (r.Add group).1 = r) ∨
    ((r.Add group).2 = none ∧ mapGet r.groups group.ID = none ∧
      mapGet r.tags group.JoinTag = none ∧
      (r.Add group).1.groups = r.groups ++ [(group.ID, group)] ∧
      (r.Add group).1.tags = r.tags ++ [(group.JoinTag, group.ID)]) := by
  cases hg : mapGet r.groups group.ID with
  | some x =>
    left
    simp [InMemoryGroupRepository.Add, hg]
  | none =>
    cases ht : mapGet r.tags group.JoinTag with
    | some x =>
      left
      simp [InMemoryGroupRepository.Add, hg, ht]
    | none =>
      right
      simp [InMemoryGroupRepository.Add, hg, ht, mapSet_of_none]

theorem repoInv_new : RepoInv NewInMemoryGroupRepository := by
  intro t id
  simp [NewInMemoryGroupRepository, mapGet]

theorem repoInv_add {r : InMemoryGroupRepository} (hinv : RepoInv r) (group : Group) :
    RepoInv (r.Add group).1 := by
  rcases add_fails_or_appends r group with ⟨_, h⟩ | ⟨_, hg, ht, hgs, hts⟩
  · rw [h]
    exact hinv
  · intro t id
    rw [hgs, hts, ← mapSet_of_none _ _ _ hg, ← mapSet_of_none _ _ _ ht]
    by_cases htt : t = group.JoinTag
    · subst htt
      rw [mapGet_mapSet_self]
      constructor
      · intro h
        cases h
        exact ⟨group, mapGet_mapSet_self _ _ _, rfl⟩
      · rintro ⟨x, hx, hxt⟩
        by_cases hid : id = group.ID
        · rw [hid]
        · rw [mapGet_mapSet_ne _ _ _ _ hid] at hx
          have := (hinv group.JoinTag id).2 ⟨x, hx, hxt⟩
          rw [ht] at this
          cases this
    · rw [mapGet_mapSet_ne _ _ _ _ htt]
      constructor
      · intro h
        obtain ⟨x, hx, hxt⟩ := (hinv t id).1 h
        have hid : id ≠ group.ID := by
          intro heq
          rw [heq, hg] at hx
          cases hx
        exact ⟨x, by rw [mapGet_mapSet_ne _ _ _ _ hid]; exact hx, hxt⟩
      · rintro ⟨x, hx, hxt⟩
        by_cases hid : id = group.ID
        · subst hid
          rw [mapGet_mapSet_self] at hx
          cases hx
          exact absurd hxt.symm htt
        · rw [mapGet_mapSet_ne _ _ _ _ hid] at hx
          exact (hinv t id).2 ⟨x, hx, hxt⟩

theorem repoInv_remove {r : InMemoryGroupRepository} (hinv : RepoInv r) (id₀ : String) :
    RepoInv (r.Remove id₀).1 := by
  unfold InMemoryGroupRepository.Remove
  cases hg : mapGet r.groups id₀ with
  | none => exact hinv
  | some g =>
    have hgt : mapGet r.tags g.JoinTag = some id₀ := (hinv _ _).2 ⟨g, hg, rfl⟩
    intro t id
    dsimp only
    by_cases htt : t = g.JoinTag
    · subst htt
      rw [mapGet_mapDelete_self]
      constructor
      · intro h
        cases h
      · rintro ⟨x, hx, hxt⟩
        exfalso
        by_cases hid : id = id₀
        · subst hid
          rw [mapGet_mapDelete_self] at hx
          cases hx
        · rw [mapGet_mapDelete_ne _ _ _ hid] at hx
          have := (hinv g.JoinTag id).2 ⟨x, hx, hxt⟩
          rw [hgt] at this
          exact hid (Option.some.inj this).symm
    · rw [mapGet_mapDelete_ne _ _ _ htt]
      constructor
      · intro h
        obtain ⟨x, hx, hxt⟩ := (hinv t id).1 h
        have hid : id ≠ id₀ := by
          intro heq
          subst heq
          rw [hg] at hx
          cases hx
          exact htt hxt.symm
        exact ⟨x, by rw [mapGet_mapDelete_ne _ _ _ hid]; exact hx, hxt⟩
      · rintro ⟨x, hx, hxt⟩
        by_cases hid : id = id₀
        · subst hid
          rw [mapGet_mapDelete_self] at hx
          cases hx
        · rw [mapGet_mapDelete_ne _ _ _ hid] at hx
          exact (hinv t id).2 ⟨x, hx, hxt⟩

theorem repoInv_runRepoCalls {r : InMemoryGroupRepository} (hinv : RepoInv r)
    (calls : List RepoCall) : RepoInv (runRepoCalls r calls) := by
  induction calls generalizing r with
  | nil => exact hinv
  | cons c cs ih =>
    apply ih
    cases c with
    | add group => exact repoInv_add hinv group
    | remove id => exact repoInv_remove hinv id
    | save group => exact hinv

/-- C15. The group record and its tag reservation go together: `Add` either
returns an error and leaves the group map and the tag index as they were, or
returns nil having appended exactly one entry to each (the group under its ID,
the ID under its join tag); in every repository reached from the empty one by
`Add`, `Remove` and `Save` the tag index maps `t` to `id` exactly when the group
stored under `id` has join tag `t`, so a successful `GetByTag` never yields a
nil group. -/
theorem group_and_tag_together (r : InMemoryGroupRepository) (group : Group)
    (calls : List RepoCall) :
    (((∃ err, (r.Add group).2 = some err) ∧ (r.Add group).1 = r) ∨
      ((r.Add group).2 = none ∧
        (r.Add group).1.groups = r.groups ++ [(group.ID, group)] ∧
        (r.Add group).1.tags = r.tags ++ [(group.JoinTag, group.ID)])) ∧
    (∀ t id, mapGet (runRepoCalls NewInMemoryGroupRepository calls).tags t = some id ↔
      ∃ g, mapGet (runRepoCalls NewInMemoryGroupRepository calls).groups id = some g ∧
        g.JoinTag = t) ∧
    (∀ t, (runRepoCalls NewInMemoryGroupRepository calls).GetByTag t ≠ .ok none) := by
  have hinv := repoInv_runRepoCalls repoInv_new calls
  refine ⟨?_, hinv, ?_⟩
  · rcases add_fails_or_appends r group with h | ⟨h1, _, _, h4, h5⟩
    · exact Or.inl h
    · exact Or.inr ⟨h1, h4, h5⟩
  · intro t
    unfold InMemoryGroupRepository.GetByTag
    cases ht : mapGet (runRepoCalls NewInMemoryGroupRepository calls).tags t with
    | none => simp
    | some id =>
      obtain ⟨g, hg, _⟩ := (hinv t id).1 ht
      simp [hg]

/-! ## ChatService.UpdateGroupDetails -/

/-- C16. `UpdateGroupDetails` is a partial update: for a stored group the call
succeeds and the group it returns and stores has the given name if that is
non-empty and the old name otherwise, the given picture URL if that is
non-empty and the old one otherwise, and the old ID, join tag, owner, members
and creation time; for a group ID that is not stored the call returns
`ErrGroupNotFound` and changes nothing. -/
theorem updateGroupDetails_fills_given_fields (s : Stores) (hinv : StoreInv s)
    (groupID name profilePicURL : String) :
    (∀ g, mapGet s.groupRepo.groups groupID = some g →
      ∃ g', (ChatService.UpdateGroupDetails s groupID name profilePicURL).2 = .ok g' ∧
        mapGet (ChatService.UpdateGroupDetails s groupID name profilePicURL).1.groupRepo.groups
          groupID = some g' ∧
        g'.Name = (if name ≠ "" then name else g.Name) ∧
        g'.ProfilePictureURL = (if profilePicURL ≠ "" then profilePicURL
          else g.ProfilePictureURL) ∧
        g'.ID = g.ID ∧ g'.JoinTag = g.JoinTag ∧ g'.OwnerID = g.OwnerID ∧
        g'.Members = g.Members ∧ g'.CreatedAt = g.CreatedAt) ∧
    (mapGet s.groupRepo.groups groupID = none →
      (ChatService.UpdateGroupDetails s groupID name profilePicURL).2
        = .error .ErrGroupNotFound ∧
      (ChatService.UpdateGroupDetails s groupID name profilePicURL).1 = s) := by
  constructor
  · intro g hg
    have hgid : g.ID = groupID := hinv.groupKey _ _ hg
    have hid : (g.UpdateDetails name profilePicURL).ID = groupID := by
      rw [(updateDetails_fields g name profilePicURL).1, hgid]
    have hcall : ChatService.UpdateGroupDetails s groupID name profilePicURL =
        (s.writeGroup groupID (g.UpdateDetails name profilePicURL),
          .ok (g.UpdateDetails name profilePicURL)) := by
      simp [ChatService.UpdateGroupDetails, InMemoryGroupRepository.GetByID,
        InMemoryGroupRepository.Save, hg, hid, Stores.writeGroup, mapGet_mapSet_self]
    rw [hcall]
    refine ⟨_, rfl, ?_, ?_⟩
    · simp [Stores.writeGroup, mapGet_mapSet_self]
    · unfold Group.UpdateDetails
      by_cases h1 : name = "" <;> by_cases h2 : profilePicURL = "" <;> simp [h1, h2]
  · intro hg
    simp [ChatService.UpdateGroupDetails, InMemoryGroupRepository.GetByID, hg]

/-- Witness of C16: `g1` gets a picture URL and keeps its name. -/
theorem updateGroupDetails_fills_given_fields_witness :
    mapGet friendsStores.groupRepo.groups "g1" =
      some ⟨"g1", "Friends", "abc123", "", "u1", [("u1", 0), ("u2", 1)], 4⟩ ∧
    ∃ g', (ChatService.UpdateGroupDetails friendsStores "g1" "" "pic.png").2 = .ok g' ∧
      g'.Name = "Friends" ∧ g'.ProfilePictureURL = "pic.png" :=
  ⟨rfl,
   match (updateGroupDetails_fills_given_fields friendsStores storeInv_friendsStores "g1" "" "pic.png").1
      ⟨"g1", "Friends", "abc123", "", "u1", [("u1", 0), ("u2", 1)], 4⟩ rfl with
   | ⟨g', h1, _, h3, h4, _⟩ => ⟨g', h1, by simpa using h3, by simpa using h4⟩⟩

/-! ## ChatService.RegisterUser and UnregisterUser -/

/-- C17. `RegisterUser` is idempotent: when the user map has a record under
`id`, the call succeeds with that stored record, whatever name and key are
passed, and the stores (so the record, with its display name and public key)
are unchanged; when it has none, the call succeeds with a new record whose ID,
display name and public key are the given ones, stored under `id`, and every
other entry of the user map is as before. -/
theorem registerUser_idempotent (s : Stores) (id displayName publicKey : String)
    (now : Nat) :
    (∀ user, mapGet s.userRepo.users id = some user →
      ChatService.RegisterUser s id displayName publicKey now = (s, .ok user)) ∧
    (mapGet s.userRepo.users id = none →
      ∃ user, (ChatService.RegisterUser s id displayName publicKey now).2 = .ok user ∧
        mapGet (ChatService.RegisterUser s id displayName publicKey now).1.userRepo.users id
          = some user ∧
        deref (ChatService.RegisterUser s id displayName publicKey now).1.heap user =
          ⟨id, displayName, "", publicKey, now⟩ ∧
        (∀ k, k ≠ id →
          mapGet (ChatService.RegisterUser s id displayName publicKey now).1.userRepo.users k
            = mapGet s.userRepo.users k) ∧
        (∀ p, p < s.heap.length →
          deref (ChatService.RegisterUser s id displayName publicKey now).1.heap p
            = deref s.heap p) ∧
        (ChatService.RegisterUser s id displayName publicKey now).1.groupRepo = s.groupRepo) := by
  constructor
  · intro user hu
    simp [ChatService.RegisterUser, InMemoryUserRepository.GetByID, hu]
  · intro hu
    have hcall : ChatService.RegisterUser s id displayName publicKey now =
        ({ s with heap := s.heap ++ [NewUser id displayName publicKey now],
                  userRepo := { users := mapSet s.userRepo.users id s.heap.length } },
          .ok s.heap.length) := by
      simp [ChatService.RegisterUser, InMemoryUserRepository.GetByID,
        InMemoryUserRepository.Add, hu, deref_append_length, NewUser]
    rw [hcall]
    refine ⟨_, rfl, mapGet_mapSet_self _ _ _, ?_, ?_, ?_, rfl⟩
    · simp [deref_append_length, NewUser]
    · intro k hk
      exact mapGet_mapSet_ne _ _ _ _ hk
    · intro p hp
      exact deref_append_of_lt _ _ _ hp

/-- Witness of C17: `u1` registers again under another name; `u9` is new. -/
theorem registerUser_idempotent_witness :
    mapGet friendsStores.userRepo.users "u1" = some 0 ∧
    ChatService.RegisterUser friendsStores "u1" "Zed" "k9" 8 = (friendsStores, .ok 0) ∧
    (deref friendsStores.heap 0).DisplayName = "Ann" ∧
    mapGet friendsStores.userRepo.users "u9" = none ∧
    ∃ user, (ChatService.RegisterUser friendsStores "u9" "Zed" "k9" 8).2 = .ok user :=
  ⟨rfl, (registerUser_idempotent friendsStores "u1" "Zed" "k9" 8).1 0 rfl, rfl, rfl,
   match (registerUser_idempotent friendsStores "u9" "Zed" "k9" 8).2 rfl with
   | ⟨user, h1, _⟩ => ⟨user, h1⟩⟩

/-- C18. `UnregisterUser` touches the user map only: the heap of user objects
and the group repository (every group with its members, owner and join tag) are
unchanged, so a member stays a member; for a stored ID the call returns nil and
the user map loses exactly that key, for an unknown ID it returns an error and
the stores are unchanged. -/
theorem unregisterUser_keeps_membership (s : Stores) (userID : String) :
    (ChatService.UnregisterUser s userID).1.groupRepo = s.groupRepo ∧
    (ChatService.UnregisterUser s userID).1.heap = s.heap ∧
    (∀ id g, mapGet s.groupRepo.groups id = some g → userID ∈ g.GetMemberIDs →
      ∃ g', mapGet (ChatService.UnregisterUser s userID).1.groupRepo.groups id = some g' ∧
        userID ∈ g'.GetMemberIDs ∧ g'.OwnerID = g.OwnerID ∧ g'.JoinTag = g.JoinTag) ∧
    (∀ user, mapGet s.userRepo.users userID = some user →
      (ChatService.UnregisterUser s userID).2 = none ∧
      mapGet (ChatService.UnregisterUser s userID).1.userRepo.users userID = none ∧
      ∀ k, k ≠ userID →
        mapGet (ChatService.UnregisterUser s userID).1.userRepo.users k
          = mapGet s.userRepo.users k) ∧
    (mapGet s.userRepo.users userID = none →
      (∃ err, (ChatService.UnregisterUser s userID).2 = some err) ∧
      (ChatService.UnregisterUser s userID).1 = s) := by
  have hrepo : (ChatService.UnregisterUser s userID).1.groupRepo = s.groupRepo := by
    unfold ChatService.UnregisterUser InMemoryUserRepository.Remove
    cases mapGet s.userRepo.users userID <;> rfl
  have hheap : (ChatService.UnregisterUser s userID).1.heap = s.heap := by
    unfold ChatService.UnregisterUser InMemoryUserRepository.Remove
    cases mapGet s.userRepo.users userID <;> rfl
  refine ⟨hrepo, hheap, ?_, ?_, ?_⟩
  · intro id g hg hmem
    rw [hrepo]
    exact ⟨g, hg, hmem, rfl, rfl⟩
  · intro user hu
    have hcall : ChatService.UnregisterUser s userID =
        ({ s with userRepo := { users := mapDelete s.userRepo.users userID } }, none) := by
      simp [ChatService.UnregisterUser, InMemoryUserRepository.Remove, hu]
    rw [hcall]
    refine ⟨rfl, mapGet_mapDelete_self _ _, ?_⟩
    intro k hk
    exact mapGet_mapDelete_ne _ _ _ hk
  · intro hu
    simp [ChatService.UnregisterUser, InMemoryUserRepository.Remove, hu]

/-- Witness of C18: `u2`, a member of `g1`, is unregistered and stays a member. -/
theorem unregisterUser_keeps_membership_witness :
    mapGet friendsStores.userRepo.users "u2" = some 1 ∧
    (ChatService.UnregisterUser friendsStores "u2").2 = none ∧
    ∃ g', mapGet (ChatService.UnregisterUser friendsStores "u2").1.groupRepo.groups "g1"
        = some g' ∧ "u2" ∈ g'.GetMemberIDs :=
  have h := unregisterUser_keeps_membership friendsStores "u2"
  ⟨rfl, (h.2.2.2.1 1 rfl).1,
   match h.2.2.1 "g1" ⟨"g1", "Friends", "abc123", "", "u1", [("u1", 0), ("u2", 1)], 4⟩ rfl
      (by decide) with
   | ⟨g', h1, h2, _⟩ => ⟨g', h1, h2⟩⟩

/-! ## Uniqueness of group keys -/

theorem nodup_mapKeys_mapSet {V : Type} (m : GoMap V) (k : String) (v : V)
    (h : (mapKeys m).Nodup) : (mapKeys (mapSet m k v)).Nodup := by
  induction m with
  | nil => simp [mapSet, mapKeys]
  | cons e m ih =>
    obtain ⟨k', v'⟩ := e
    have h' : k' ∉ mapKeys m ∧ (mapKeys m).Nodup := by
      simpa [mapKeys] using h
    by_cases hk : k' = k
    · subst hk
      simpa [mapSet, mapKeys] using h
    · have hnot : k' ∉ mapKeys (mapSet m k v) := by
        rw [mem_mapKeys_mapSet]
        rintro (hmem | heq)
        · exact h'.1 hmem
        · exact hk heq
      have hrest := ih h'.2
      simp only [mapSet, hk, if_false, mapKeys, List.map_cons, List.nodup_cons]
      exact ⟨hnot, hrest⟩

theorem nodup_mapKeys_mapDelete {V : Type} (m : GoMap V) (k : String)
    (h : (mapKeys m).Nodup) : (mapKeys (mapDelete m k)).Nodup := by
  induction m with
  | nil => simp [mapDelete, mapKeys]
  | cons e m ih =>
    obtain ⟨k', v'⟩ := e
    have h' : k' ∉ mapKeys m ∧ (mapKeys m).Nodup := by
      simpa [mapKeys] using h
    by_cases hk : k' = k
    · simp only [mapDelete, hk, if_true]
      exact ih h'.2
    · have hnot : k' ∉ mapKeys (mapDelete m k) := by
        rw [mem_mapKeys_mapDelete]
        rintro ⟨hmem, _⟩
        exact h'.1 hmem
      have hrest := ih h'.2
      simp only [mapDelete, hk, if_false, mapKeys, List.map_cons, List.nodup_cons]
      exact ⟨hnot, hrest⟩

theorem mapGet_of_mem_nodup {V : Type} (m : GoMap V) (k : String) (v : V)
    (hnd : (mapKeys m).Nodup) (h : (k, v) ∈ m) : mapGet m k = some v := by
  induction m with
  | nil => simp at h
  | cons e m ih =>
    obtain ⟨k', v'⟩ := e
    have h' : k' ∉ mapKeys m ∧ (mapKeys m).Nodup := by
      simpa [mapKeys] using hnd
    rcases List.mem_cons.1 h with heq | hmem
    · cases heq
      simp [mapGet]
    · have hk : k' ≠ k := by
        intro hkk
        apply h'.1
        rw [hkk]
        exact List.mem_map.2 ⟨(k, v), hmem, rfl⟩
      simp [mapGet, hk, ih h'.2 hmem]

theorem groupKeysNodup_writeGroup {s : Stores} (h : GroupKeysNodup s) (key : String)
    (g : Group) : GroupKeysNodup (s.writeGroup key g) :=
  nodup_mapKeys_mapSet _ _ _ h

theorem groupKeysNodup_apply {s : Stores} (h : GroupKeysNodup s) (c : Call) :
    GroupKeysNodup (c.apply s) := by
  cases c with
  | registerUser a b c d =>
    have : (ChatService.RegisterUser s a b c d).1.groupRepo = s.groupRepo := by
      unfold ChatService.RegisterUser InMemoryUserRepository.GetByID InMemoryUserRepository.Add
      cases mapGet s.userRepo.users a with
      | some p => rfl
      | none =>
        dsimp only
        split <;> rfl
    simpa [Call.apply, GroupKeysNodup, this] using h
  | unregisterUser a =>
    have : (ChatService.UnregisterUser s a).1.groupRepo = s.groupRepo := by
      unfold ChatService.UnregisterUser InMemoryUserRepository.Remove
      cases mapGet s.userRepo.users a <;> rfl
    simpa [Call.apply, GroupKeysNodup, this] using h
  | createGroup a b c d e =>
    rcases createGroup_state s a b c d e with hs | ⟨owner, hown, htag, hfresh⟩
    · simpa [Call.apply, hs] using h
    · simp only [Call.apply, createGroup_ok s a b c d e owner hown htag hfresh]
      exact nodup_mapKeys_mapSet _ _ _ h
  | joinGroup a b =>
    rcases joinGroup_state s a b with hs | ⟨g, user, _, _, hs⟩
    · simpa [Call.apply, hs] using h
    · simp only [Call.apply, hs]
      exact groupKeysNodup_writeGroup h _ _
  | leaveGroup a b c =>
    rcases leaveGroup_state s a b c with hs | ⟨g, _, hs⟩
    · simpa [Call.apply, hs] using h
    · simp only [Call.apply, hs]
      exact groupKeysNodup_writeGroup h _ _
  | updateGroupDetails a b c =>
    rcases updateGroupDetails_state s a b c with hs | ⟨g, _, hs⟩
    · simpa [Call.apply, hs] using h
    · simp only [Call.apply, hs]
      exact groupKeysNodup_writeGroup h _ _
  | updateUserProfile a b c =>
    have : (ChatService.UpdateUserProfile s a b c).1.groupRepo = s.groupRepo := by
      unfold ChatService.UpdateUserProfile InMemoryUserRepository.GetByID
      cases mapGet s.userRepo.users a <;> rfl
    simpa [Call.apply, GroupKeysNodup, this] using h
  | removeGroup a =>
    simp only [Call.apply, InMemoryGroupRepository.Remove]
    cases mapGet s.groupRepo.groups a with
    | none => exact h
    | some g => exact nodup_mapKeys_mapDelete _ _ h

theorem groupKeysNodup_runCalls {s : Stores} (h : GroupKeysNodup s) (calls : List Call) :
    GroupKeysNodup (runCalls s calls) := by
  induction calls generalizing s with
  | nil => exact h
  | cons c cs ih => exact ih (groupKeysNodup_apply h c)

/-- Every state reached from the empty stores has pairwise distinct group keys. -/
theorem groupKeysNodup_reachable (calls : List Call) :
    GroupKeysNodup (runCalls Stores.empty calls) :=
  groupKeysNodup_runCalls (by simp [GroupKeysNodup, Stores.empty,
    NewInMemoryGroupRepository, mapKeys]) calls

/-- With the invariant and distinct keys, the stored groups have pairwise
distinct join tags. -/
theorem stored_tags_nodup {s : Stores} (hinv : StoreInv s) (hnd : GroupKeysNodup s) :
    (s.groupRepo.GetAll.map Group.JoinTag).Nodup := by
  have hentries : (s.groupRepo.groups).Nodup := List.Nodup.of_map _ hnd
  have hmap : (s.groupRepo.groups.map (fun e => e.2.JoinTag)).Nodup := by
    apply List.Nodup.map_on _ hentries
    rintro ⟨k1, g1⟩ h1 ⟨k2, g2⟩ h2 htag
    have e1 := mapGet_of_mem_nodup _ _ _ hnd h1
    have e2 := mapGet_of_mem_nodup _ _ _ hnd h2
    have t1 := hinv.groupTag _ _ e1
    have t2 := hinv.groupTag _ _ e2
    dsimp only at htag
    rw [htag, t2] at t1
    have hk : k2 = k1 := Option.some.inj t1
    subst hk
    rw [e1] at e2
    cases e2
    rfl
  simpa [InMemoryGroupRepository.GetAll, mapValues, List.map_map, Function.comp_def] using hmap

theorem mem_getAll_iff {s : Stores} (hnd : GroupKeysNodup s) (g : Group) :
    g ∈ s.groupRepo.GetAll ↔ ∃ id, mapGet s.groupRepo.groups id = some g := by
  simp only [InMemoryGroupRepository.GetAll, mapValues, List.mem_map]
  constructor
  · rintro ⟨⟨k, v⟩, hmem, rfl⟩
    exact ⟨k, mapGet_of_mem_nodup _ _ _ hnd hmem⟩
  · rintro ⟨id, hid⟩
    exact ⟨(id, g), mapGet_mem _ _ _ hid, rfl⟩

/-! ## ChatService.FindGroupsByTag -/

theorem nodup_all_eq_length_le_one (l : List String) (q : String) (hnd : l.Nodup)
    (hall : ∀ x, x ∈ l → x = q) : l.length ≤ 1 := by
  match l, hnd, hall with
  | [], _, _ => simp
  | [_], _, _ => simp
  | a :: b :: rest, hnd, hall =>
    exfalso
    have ha : a = q := hall a (by simp)
    have hb : b = q := hall b (by simp)
    have hne : a ≠ b := by
      intro hab
      rw [hab] at hnd
      simp at hnd
    exact hne (ha.trans hb.symm)

theorem findGroupsByTag_tags_nodup (equalFold : String → String → Bool) {s : Stores}
    (hinv : StoreInv s) (hnd : GroupKeysNodup s) (q : String) :
    ((s.groupRepo.GetAll.filter (fun group => equalFold group.JoinTag q)).map
      Group.JoinTag).Nodup :=
  List.Nodup.sublist (List.Sublist.map _ (List.filter_sublist _)) (stored_tags_nodup hinv hnd)

/-- C13. `FindGroupsByTag` returns all and only the stored groups whose join tag
equals the query under `strings.EqualFold`: in a state with the repository
invariant and distinct group keys the call succeeds without changing the
stores, a group is in the result exactly when it is stored and its join tag
folds to the query, and every group of the result occurs in it once. -/
theorem findGroupsByTag_all_and_only (equalFold : String → String → Bool) (s : Stores)
    (hinv : StoreInv s) (hnd : GroupKeysNodup s) (q : String) :
    ∃ l, ChatService.FindGroupsByTag equalFold s q = (s, .ok l) ∧
      (∀ g, g ∈ l ↔
        (∃ id, mapGet s.groupRepo.groups id = some g) ∧ equalFold g.JoinTag q = true) ∧
      (∀ g, g ∈ l → l.count g = 1) := by
  refine ⟨_, rfl, ?_, ?_⟩
  · intro g
    rw [List.mem_filter, mem_getAll_iff hnd]
  · intro g hg
    have hl : (s.groupRepo.GetAll.filter (fun group => equalFold group.JoinTag q)).Nodup :=
      List.Nodup.of_map _ (findGroupsByTag_tags_nodup equalFold hinv hnd q)
    exact List.count_eq_one_of_mem hl hg

/-- Witness of C13: the search for `ABC123` in the stores holding `g1` with tag `abc123`. -/
theorem findGroupsByTag_all_and_only_witness :
    ∃ l, ChatService.FindGroupsByTag equalFoldASCII friendsStores "ABC123"
        = (friendsStores, .ok l) ∧
      (∀ g, g ∈ l ↔ (∃ id, mapGet friendsStores.groupRepo.groups id = some g) ∧
        equalFoldASCII g.JoinTag "ABC123" = true) :=
  match findGroupsByTag_all_and_only equalFoldASCII friendsStores storeInv_friendsStores
      (groupKeysNodup_reachable _) "ABC123" with
  | ⟨l, h1, h2, _⟩ => ⟨l, h1, h2⟩

/-- C14, as stated, fails: after the calls register, create `g1` with tag
`abc123`, join, create `g2` with tag `ABC123`, the search for `abc123` returns
both groups. -/
theorem findGroupsByTag_two_results :
    caseTwinStores = runCalls Stores.empty
      (threeUsers ++ [.createGroup "Friends" "abc123" "u1" "g1" 4, .joinGroup "g1" "u2",
        .createGroup "Shouting" "ABC123" "u3" "g2" 9]) ∧
    (ChatService.FindGroupsByTag equalFoldASCII caseTwinStores "abc123").2 =
      .ok [⟨"g1", "Friends", "abc123", "", "u1", [("u1", 0), ("u2", 1)], 4⟩,
           ⟨"g2", "Shouting", "ABC123", "", "u3", [("u3", 2)], 9⟩] :=
  ⟨rfl, rfl⟩

/-- C14, amended. In every state reached from the empty stores by the calls of
the service and by group removal, and for every query, the groups that
`FindGroupsByTag` returns have pairwise different join tags, so at most one of
them has the query itself as its join tag. -/
theorem findGroupsByTag_one_per_tag (equalFold : String → String → Bool)
    (calls : List Call) (q : String) :
    ∃ l, (ChatService.FindGroupsByTag equalFold (runCalls Stores.empty calls) q).2 = .ok l ∧
      (l.map Group.JoinTag).Nodup ∧
      (l.filter (fun g => decide (g.JoinTag = q))).length ≤ 1 := by
  have hnd := findGroupsByTag_tags_nodup equalFold (storeInv_reachable calls)
    (groupKeysNodup_reachable calls) q
  refine ⟨_, rfl, hnd, ?_⟩
  have hsub : (((runCalls Stores.empty calls).groupRepo.GetAll.filter
      (fun group => equalFold group.JoinTag q)).filter
      (fun g => decide (g.JoinTag = q))).map Group.JoinTag |>.Nodup :=
    List.Nodup.sublist (List.Sublist.map _ (List.filter_sublist _)) hnd
  have hlen := nodup_all_eq_length_le_one _ q hsub (by
    intro x hx
    obtain ⟨g, hg, rfl⟩ := List.mem_map.1 hx
    simpa using (List.mem_filter.1 hg).2)
  simpa using hlen

/-! ## Hub.handleMessage -/

/-- C20. The routing of `handleMessage`: whatever the handlers are, a message
of each of the eight types is answered by one call of the handler the `switch`
names for it, with the client and the payload as received (`handleKeyExchange`
with the reply type `key_exchange_answer` for an offer and
`key_exchange_complete` for an answer) and no log line; a message of any other
type calls no handler: the state, registries included, is returned as it was
and one log line is written. -/
theorem handleMessage_routes {σ C P : Type} (h : Handlers σ C P) (client : C) (payload : P)
    (w : σ) :
    Hub.handleMessage h client ⟨"authenticate", payload⟩ w
      = (h.handleAuthenticate client payload w, []) ∧
    Hub.handleMessage h client ⟨"create_group", payload⟩ w
      = (h.handleCreateGroup client payload w, []) ∧
    Hub.handleMessage h client ⟨"join_group", payload⟩ w
      = (h.handleJoinGroup client payload w, []) ∧
    Hub.handleMessage h client ⟨"leave_group", payload⟩ w
      = (h.handleLeaveGroup client payload w, []) ∧
    Hub.handleMessage h client ⟨"send_message", payload⟩ w
      = (h.handleSendMessage client payload w, []) ∧
    Hub.handleMessage h client ⟨"key_exchange_offer", payload⟩ w
      = (h.handleKeyExchange client payload "key_exchange_answer" w, []) ∧
    Hub.handleMessage h client ⟨"key_exchange_answer", payload⟩ w
      = (h.handleKeyExchange client payload "key_exchange_complete" w, []) ∧
    Hub.handleMessage h client ⟨"update_profile", payload⟩ w
      = (h.handleUpdateProfile client payload w, []) ∧
    (∀ t, t ∉ recognisedTypes →
      Hub.handleMessage h client ⟨t, payload⟩ w = (w, ["Unknown message type: " ++ t])) := by
  refine ⟨rfl, rfl, rfl, rfl, rfl, rfl, rfl, rfl, ?_⟩
  intro t ht
  simp only [recognisedTypes, List.mem_cons, List.mem_singleton, not_or, List.not_mem_nil,
    not_false_eq_true, and_true] at ht
  obtain ⟨h1, h2, h3, h4, h5, h6, h7, h8⟩ := ht
  simp [Hub.handleMessage, h1, h2, h3, h4, h5, h6, h7, h8]

/-- Witness of C20 with handlers that record their calls: an offer is recorded
once with the reply type, a `ping` not at all. -/
theorem handleMessage_routes_witness :
    "ping" ∉ recognisedTypes ∧
    Hub.handleMessage (recordingHandlers Nat String) 3 ⟨"key_exchange_offer", "pk"⟩ []
      = ([("handleKeyExchange", 3, "pk", "key_exchange_answer")], []) ∧
    Hub.handleMessage (recordingHandlers Nat String) 3 ⟨"ping", "pk"⟩ []
      = ([], ["Unknown message type: ping"]) :=
  have h := handleMessage_routes (recordingHandlers Nat String) 3 "pk" []
  ⟨by decide, h.2.2.2.2.2.1, h.2.2.2.2.2.2.2.2 "ping" (by decide)⟩

/-- C19, as stated, fails: a message of the unknown type `ping` from a
connection that is bound to no user is not answered with `Unauthenticated`;
the state, the empty queue of the connection included, is as before and the
message is only logged. -/
theorem unknown_type_not_rejected :
    freshConnection.boundUser 0 = none ∧
    Hub.handleMessage (guardedHandlers unauthReply (idleHandlers String)) 0 ⟨"ping", "x"⟩
      freshConnection = (freshConnection, ["Unknown message type: ping"]) ∧
    (freshConnection.conns.map Client.send) = [[]] :=
  ⟨rfl, rfl, rfl⟩

/-- C19, amended. For a connection bound to no user and a message of one of the
seven recognised types other than `authenticate`, `handleMessage` with the
guarded handlers queues the `Unauthenticated` reply for that connection and
does nothing else, whatever the handler bodies are: the hub registries and the
stores are unchanged and nothing is logged.  A message of an unrecognised type
is logged and dropped, without a reply. -/
theorem unauthenticated_message_rejected {P : Type} (unauth : OutgoingMessage P)
    (h : Handlers (HubState P) Nat P) (w : HubState P) (client : Nat)
    (msg : IncomingMessage P) (hunbound : w.boundUser client = none)
    (htype : msg.MsgType ≠ "authenticate") :
    (msg.MsgType ∈ recognisedTypes →
      Hub.handleMessage (guardedHandlers unauth h) client msg w
        = (w.sendTo client unauth, []) ∧
      (w.sendTo client unauth).hub = w.hub ∧ (w.sendTo client unauth).stores = w.stores) ∧
    (msg.MsgType ∉ recognisedTypes →
      Hub.handleMessage (guardedHandlers unauth h) client msg w
        = (w, ["Unknown message type: " ++ msg.MsgType])) := by
  constructor
  · intro hrec
    refine ⟨?_, rfl, rfl⟩
    simp only [recognisedTypes, List.mem_cons, List.mem_singleton, List.not_mem_nil,
      or_false] at hrec
    rcases hrec with h0 | h1 | h2 | h3 | h4 | h5 | h6 | h7
    · exact absurd h0 htype
    all_goals simp [Hub.handleMessage, guardedHandlers, requireAuthenticated, hunbound, *]
  · intro hrec
    simp only [recognisedTypes, List.mem_cons, List.mem_singleton, not_or, List.not_mem_nil,
      not_false_eq_true, and_true] at hrec
    obtain ⟨h1, h2, h3, h4, h5, h6, h7, h8⟩ := hrec
    simp [Hub.handleMessage, h1, h2, h3, h4, h5, h6, h7, h8]

/-- Witness of the amended C19: `join_group` from the unbound connection. -/
theorem unauthenticated_message_rejected_witness :
    freshConnection.boundUser 0 = none ∧ "join_group" ≠ "authenticate" ∧
    "join_group" ∈ recognisedTypes ∧
    Hub.handleMessage (guardedHandlers unauthReply (idleHandlers String)) 0
      ⟨"join_group", "g1"⟩ freshConnection
      = (freshConnection.sendTo 0 unauthReply, []) :=
  ⟨rfl, by decide, by decide,
   ((unauthenticated_message_rejected unauthReply (idleHandlers String) freshConnection 0
      ⟨"join_group", "g1"⟩ rfl (by decide)).1 (by decide)).1⟩

/-! ## Group.RemoveMember without a transfer of ownership -/

theorem mapDelete_of_not_mem {V : Type} (m : GoMap V) (k : String) (h : k ∉ mapKeys m) :
    mapDelete m k = m := by
  induction m with
  | nil => rfl
  | cons e m ih =>
    obtain ⟨k', v'⟩ := e
    have h' : k ≠ k' ∧ k ∉ mapKeys m := by
      simpa [mapKeys] using h
    simp [mapDelete, Ne.symm h'.1, ih h'.2]

theorem length_mapDelete_of_nodup {V : Type} (m : GoMap V) (k : String)
    (hnd : (mapKeys m).Nodup) (h : k ∈ mapKeys m) :
    (mapDelete m k).length + 1 = m.length := by
  induction m with
  | nil => simp [mapKeys] at h
  | cons e m ih =>
    obtain ⟨k', v'⟩ := e
    have hnd' : k' ∉ mapKeys m ∧ (mapKeys m).Nodup := by
      simpa [mapKeys] using hnd
    by_cases hk : k' = k
    · subst hk
      simp [mapDelete, mapDelete_of_not_mem m k' hnd'.1]
    · have hmem : k ∈ mapKeys m := by
        simpa [mapKeys, Ne.symm hk] using h
      simp [mapDelete, hk, ih hnd'.2 hmem]

theorem mapDelete_eq_nil_of_only {V : Type} (m : GoMap V) (k : String)
    (h : ∀ x, x ∈ mapKeys m → x = k) : mapDelete m k = [] := by
  induction m with
  | nil => rfl
  | cons e m ih =>
    obtain ⟨k', v'⟩ := e
    have hk : k' = k := h k' (by simp [mapKeys])
    have hrest : ∀ x, x ∈ mapKeys m → x = k := by
      intro x hx
      exact h x (by simp only [mapKeys, List.map_cons, List.mem_cons]; exact Or.inr hx)
    simp [mapDelete, hk, ih hrest]

/-- C22. A leave that does not transfer ownership: when `u` is a member and is
either not the owner or the only member, `RemoveMember(u)` succeeds with an
empty new-owner ID, whatever the random source; `OwnerID`, `Name`, `JoinTag`,
`ID`, the picture URL and the creation time are unchanged; the member IDs
afterwards are the old ones without `u`, every other member keeps its entry,
and, the keys of the member map being distinct, the member count drops by
one. -/
theorem removeMember_without_transfer (g : Group) (u : String) (rnd : Nat)
    (hnd : (mapKeys g.Members).Nodup) (hmem : u ∈ g.GetMemberIDs)
    (hcase : u ≠ g.OwnerID ∨ ∀ m, m ∈ g.GetMemberIDs → m = u) :
    (g.RemoveMember u rnd).2 = .ok "" ∧
    (g.RemoveMember u rnd).1.OwnerID = g.OwnerID ∧
    (g.RemoveMember u rnd).1.Name = g.Name ∧
    (g.RemoveMember u rnd).1.JoinTag = g.JoinTag ∧
    (g.RemoveMember u rnd).1.ID = g.ID ∧
    (g.RemoveMember u rnd).1.ProfilePictureURL = g.ProfilePictureURL ∧
    (g.RemoveMember u rnd).1.CreatedAt = g.CreatedAt ∧
    (∀ m, m ∈ (g.RemoveMember u rnd).1.GetMemberIDs ↔ m ∈ g.GetMemberIDs ∧ m ≠ u) ∧
    (∀ m, m ≠ u → mapGet (g.RemoveMember u rnd).1.Members m = mapGet g.Members m) ∧
    (g.RemoveMember u rnd).1.Members.length + 1 = g.Members.length := by
  obtain ⟨p, hp⟩ := (mem_mapKeys_iff g.Members u).1 hmem
  have hcond : ¬ (g.OwnerID = u ∧ (mapDelete g.Members u).length > 0) := by
    rintro ⟨hown, hlen⟩
    rcases hcase with hne | honly
    · exact hne hown.symm
    · rw [mapDelete_eq_nil_of_only g.Members u honly] at hlen
      simp at hlen
  have hrm : g.RemoveMember u rnd = ({ g with Members := mapDelete g.Members u }, .ok "") := by
    simp only [Group.RemoveMember, hp]
    rw [if_neg hcond]
  rw [hrm]
  refine ⟨rfl, rfl, rfl, rfl, rfl, rfl, rfl, ?_, ?_, ?_⟩
  · intro m
    exact mem_mapKeys_mapDelete _ _ _
  · intro m hm
    exact mapGet_mapDelete_ne _ _ _ hm
  · exact length_mapDelete_of_nodup _ _ hnd hmem

/-- Witness of C22: `u2`, a member but not the owner of `g1`, is removed. -/
theorem removeMember_without_transfer_witness :
    "u2" ∈ ["u1", "u2", "u3"] ∧ "u2" ≠ "u1" ∧
    (Group.RemoveMember ⟨"g1", "Friends", "abc123", "", "u1",
        [("u1", 0), ("u2", 1), ("u3", 2)], 0⟩ "u2" 5).2 = .ok "" ∧
    (Group.RemoveMember ⟨"g1", "Friends", "abc123", "", "u1",
        [("u1", 0), ("u2", 1), ("u3", 2)], 0⟩ "u2" 5).1.Members.length + 1 = 3 :=
  have h := removeMember_without_transfer
    ⟨"g1", "Friends", "abc123", "", "u1", [("u1", 0), ("u2", 1), ("u3", 2)], 0⟩ "u2" 5
    (by decide) (by decide) (Or.inl (by decide))
  ⟨by decide, by decide, h.1, h.2.2.2.2.2.2.2.2.2⟩

/-! ## Broadcast of a message to a group -/

theorem steppedClient_send {P : Type} (cap : Nat) (m : OutgoingMessage P) (excl : String)
    (sup : Bool) (cl : Client P) :
    (steppedClient cap m excl sup cl).send =
      if cl.userID ≠ some excl ∧ sup = false ∧ cl.send.length < cap then cl.send ++ [m]
      else cl.send := by
  unfold steppedClient
  by_cases h1 : cl.userID = some excl
  · simp [h1]
  · cases sup with
    | true => simp [h1]
    | false =>
      by_cases h3 : cl.send.length < cap
      · simp [h1, h3]
      · simp [h1, h3]

theorem removeMember_members (g : Group) (userID : String) (rnd : Nat) :
    (g.RemoveMember userID rnd).1.Members = g.Members ∨
    (g.RemoveMember userID rnd).1.Members = mapDelete g.Members userID := by
  unfold Group.RemoveMember
  cases mapGet g.Members userID with
  | none => exact Or.inl rfl
  | some p =>
    dsimp only
    split <;> exact Or.inr rfl

theorem memberKeysNodup_writeGroup {s : Stores} (h : MemberKeysNodup s) (key : String)
    (g : Group) (hg : (mapKeys g.Members).Nodup) : MemberKeysNodup (s.writeGroup key g) := by
  intro id x hx
  by_cases hid : id = key
  · subst hid
    simp only [Stores.writeGroup, mapGet_mapSet_self, Option.some.injEq] at hx
    subst hx
    exact hg
  · simp only [Stores.writeGroup, mapGet_mapSet_ne _ _ _ _ hid] at hx
    exact h id x hx

theorem memberKeysNodup_of_groupRepo_eq {s t : Stores} (h : MemberKeysNodup s)
    (heq : t.groupRepo = s.groupRepo) : MemberKeysNodup t := by
  intro id g hg
  rw [heq] at hg
  exact h id g hg

theorem memberKeysNodup_apply {s : Stores} (h : MemberKeysNodup s) (c : Call) :
    MemberKeysNodup (c.apply s) := by
  cases c with
  | registerUser a b c d =>
    apply memberKeysNodup_of_groupRepo_eq h
    simp only [Call.apply]
    unfold ChatService.RegisterUser InMemoryUserRepository.GetByID InMemoryUserRepository.Add
    cases mapGet s.userRepo.users a with
    | some p => rfl
    | none =>
      dsimp only
      split <;> rfl
  | unregisterUser a =>
    apply memberKeysNodup_of_groupRepo_eq h
    simp only [Call.apply]
    unfold ChatService.UnregisterUser InMemoryUserRepository.Remove
    cases mapGet s.userRepo.users a <;> rfl
  | createGroup a b c d e =>
    rcases createGroup_state s a b c d e with hs | ⟨owner, hown, htag, hfresh⟩
    · simpa [Call.apply, hs] using h
    · simp only [Call.apply, createGroup_ok s a b c d e owner hown htag hfresh]
      intro id x hx
      by_cases hid : id = d
      · subst hid
        simp only [mapGet_mapSet_self, Option.some.injEq] at hx
        subst hx
        simp [createdGroup, NewGroup, Group.AddMember, mapSet, mapKeys]
      · simp only [mapGet_mapSet_ne _ _ _ _ hid] at hx
        exact h id x hx
  | joinGroup a b =>
    rcases joinGroup_state s a b with hs | ⟨g, user, hg, _, hs⟩
    · simpa [Call.apply, hs] using h
    · simp only [Call.apply, hs]
      exact memberKeysNodup_writeGroup h _ _ (nodup_mapKeys_mapSet _ _ _ (h a g hg))
  | leaveGroup a b c =>
    rcases leaveGroup_state s a b c with hs | ⟨g, hg, hs⟩
    · simpa [Call.apply, hs] using h
    · simp only [Call.apply, hs]
      apply memberKeysNodup_writeGroup h
      rcases removeMember_members g b c with hm | hm
      · rw [hm]
        exact h a g hg
      · rw [hm]
        exact nodup_mapKeys_mapDelete _ _ (h a g hg)
  | updateGroupDetails a b c =>
    rcases updateGroupDetails_state s a b c with hs | ⟨g, hg, hs⟩
    · simpa [Call.apply, hs] using h
    · simp only [Call.apply, hs]
      apply memberKeysNodup_writeGroup h
      rw [(updateDetails_fields g b c).2.2.2]
      exact h a g hg
  | updateUserProfile a b c =>
    apply memberKeysNodup_of_groupRepo_eq h
    simp only [Call.apply]
    unfold ChatService.UpdateUserProfile InMemoryUserRepository.GetByID
    cases mapGet s.userRepo.users a <;> rfl
  | removeGroup a =>
    simp only [Call.apply, InMemoryGroupRepository.Remove]
    cases mapGet s.groupRepo.groups a with
    | none => exact h
    | some g =>
      intro id x hx
      dsimp only at hx
      by_cases hid : id = a
      · subst hid
        rw [mapGet_mapDelete_self] at hx
        cases hx
      · rw [mapGet_mapDelete_ne _ _ _ hid] at hx
        exact h id x hx

/-- Every group stored in a state reached from the empty stores has pairwise
distinct member keys. -/
theorem memberKeysNodup_reachable (calls : List Call) :
    MemberKeysNodup (runCalls Stores.empty calls) := by
  have hrun : ∀ (cs : List Call) (s : Stores), MemberKeysNodup s →
      MemberKeysNodup (runCalls s cs) := by
    intro cs
    induction cs with
    | nil => exact fun _ hs => hs
    | cons c cs ih => exact fun s hs => ih _ (memberKeysNodup_apply hs c)
  apply hrun
  intro id g hg
  simp [Stores.empty, NewInMemoryGroupRepository, mapGet] at hg

end AnonymousChat
